import Mathlib

/-!
WordFindGame: a verification development.

Shallow embedding of `wordfindgame.cpp` (word-search puzzle generator) and
theorems about its word loading, word selection, placement algorithm, retry
driver and noise fill.

Modelling conventions.

* `std::vector<std::vector<char>>` is `List (List Char)`; a subscript with an
  `int` index that is negative or not below the vector's size is undefined
  behaviour in C++ and is the result `none` here.
* `std::string` is `List Char`.
* `int` is `Int`.  The arithmetic of the program is on word lengths, grid
  coordinates and the constant 20, far from the 32-bit range, so no wrap-around
  is modelled.
* `std::rand()` is a fixed sequence `rand : Nat → Nat` of the values returned by
  successive calls, together with a counter of the calls made so far.
* `std::shuffle` is library code; it is a parameter `shuffle` of the embedding,
  and theorems assume only that it returns a permutation of its argument.
-/

namespace WordFind

/-! ## Data model -/

/-- The constant `GRID_SIZE` of the program. -/
def GRID_SIZE : Int := 20

/-- The enumeration `Direction`. -/
inductive Direction where
  | HORIZONTAL
  | VERTICAL
  | DIAGONAL
  deriving DecidableEq, Repr

/-- A grid: a vector of rows, each a vector of characters. -/
abbrev Grid := List (List Char)

/-- A word: the characters of a `std::string`. -/
abbrev Word := List Char

/-- The grid built by `main`: `GRID_SIZE` rows of `GRID_SIZE` blanks. -/
def blankGrid : Grid := List.replicate 20 (List.replicate 20 ' ')

/-- The shape of every grid the program works on: 20 rows of 20 cells. -/
def Grid.WF (g : Grid) : Prop := g.length = 20 ∧ ∀ rowv ∈ g, rowv.length = 20

/-- Subscript `v[i]` with an `int` index, read access; `none` when out of range. -/
def vecGet? {α : Type} (v : List α) (i : Int) : Option α :=
  if 0 ≤ i then v[i.toNat]? else none

/-- Subscript `v[i] = x` with an `int` index, write access; `none` when out of range. -/
def vecSet? {α : Type} (v : List α) (i : Int) (x : α) : Option (List α) :=
  if 0 ≤ i ∧ i.toNat < v.length then some (v.set i.toNat x) else none

/-- The read `grid[r][c]`. -/
def readCell (g : Grid) (r c : Int) : Option Char :=
  match vecGet? g r with
  | none => none
  | some rowv => vecGet? rowv c

/-- The write `grid[r][c] = x`. -/
def writeCell (g : Grid) (r c : Int) (x : Char) : Option Grid :=
  match vecGet? g r with
  | none => none
  | some rowv =>
    match vecSet? rowv c x with
    | none => none
    | some rowv' => vecSet? g r rowv'

/-! ## placeWordInGrid -/

/-- The row step `dRow` set by the `switch` on the direction. -/
def dRowOf : Direction → Int
  | .HORIZONTAL => 0
  | .VERTICAL => 1
  | .DIAGONAL => 1

/-- The column step `dCol` set by the `switch` on the direction. -/
def dColOf : Direction → Int
  | .HORIZONTAL => 1
  | .VERTICAL => 0
  | .DIAGONAL => 1

/-- The first loop of `placeWordInGrid` ("check if the word can be placed"),
with `n` iterations left and loop variable `i`.  `some false` is the early
`return false`, `some true` is falling out of the loop, `none` is an
out-of-range subscript.  `word[i]` is evaluated only when the cell is not blank,
as `&&` does. -/
def checkLoop (grid : Grid) (word : Word) (row col dRow dCol : Int) :
    Nat → Nat → Option Bool
  | 0, _ => some true
  | n + 1, i =>
    match readCell grid (row + (i : Int) * dRow) (col + (i : Int) * dCol) with
    | none => none
    | some currentChar =>
      if currentChar ≠ ' ' then
        match word[i]? with
        | none => none
        | some w =>
          if currentChar ≠ w then some false
          else checkLoop grid word row col dRow dCol n (i + 1)
      else checkLoop grid word row col dRow dCol n (i + 1)

/-- The second loop of `placeWordInGrid` ("place the word"), with `n`
iterations left and loop variable `i`. -/
def placeLoop (word : Word) (row col dRow dCol : Int) :
    Nat → Nat → Grid → Option Grid
  | 0, _, grid => some grid
  | n + 1, i, grid =>
    match word[i]? with
    | none => none
    | some w =>
      match writeCell grid (row + (i : Int) * dRow) (col + (i : Int) * dCol) w with
      | none => none
      | some grid' => placeLoop word row col dRow dCol n (i + 1) grid'

/-- The function `placeWordInGrid`.  The result is the returned flag and the
grid after the call; `none` is an out-of-range subscript. -/
def placeWordInGrid (grid : Grid) (word : Word) (row col : Int) (dir : Direction) :
    Option (Bool × Grid) :=
  let len : Int := (word.length : Int)
  let dRow := dRowOf dir
  let dCol := dColOf dir
  let endRow := row + dRow * (len - 1)
  let endCol := col + dCol * (len - 1)
  if endRow < 0 ∨ endRow ≥ GRID_SIZE ∨ endCol < 0 ∨ endCol ≥ GRID_SIZE then
    some (false, grid)
  else
    match checkLoop grid word row col dRow dCol word.length 0 with
    | none => none
    | some false => some (false, grid)
    | some true =>
      match placeLoop word row col dRow dCol word.length 0 grid with
      | none => none
      | some grid' => some (true, grid')

/-! ## selectRandomWords -/

/-- The call `v.resize(n)` on a vector of strings: truncate, or pad with
default-constructed (empty) strings. -/
def resize (v : List Word) (n : Nat) : List Word :=
  v.take n ++ List.replicate (n - v.length) []

/-- The function `selectRandomWords`.  `shuffle seed v` stands for
`std::shuffle` driven by `std::default_random_engine(seed)`; the seed is one
draw of `rand`.  The result is `selectedWords` and the number of `rand` calls
made so far; `none` is `resize` called with a negative count, which throws. -/
def selectRandomWords (shuffle : Nat → List Word → List Word) (rand : Nat → Nat)
    (drawn : Nat) (allWords : List Word) (minWords maxWords : Int) :
    Option (List Word × Nat) :=
  let numWords : Int := min (allWords.length : Int) maxWords
  let numWords : Int := if numWords < minWords then minWords else numWords
  let selectedWords := allWords
  let selectedWords := shuffle (rand drawn) selectedWords
  if numWords < 0 then none
  else some (resize selectedWords numWords.toNat, drawn + 1)

/-! ## generateWordGrid -/

/-- The conversion `static_cast<Direction>(dir)`; `dir` is `rand() % 3`, so only
0, 1 and 2 occur. -/
def toDirection : Nat → Direction
  | 0 => .HORIZONTAL
  | 1 => .VERTICAL
  | _ => .DIAGONAL

/-- The variables of the retry loop of `generateWordGrid` for one word:
`placed`, `attempts`, the grid, and the number of `rand` calls made so far. -/
structure RetryState where
  placed : Bool
  attempts : Nat
  grid : Grid
  drawn : Nat

/-- The loop `while (!placed && attempts < 100)` of `generateWordGrid`, from
the loop state `st`.  Each iteration draws direction, row and column in that
order, calls `placeWordInGrid` and increments `attempts`.  The only way out of the
loop is its test; the recursion is well founded because the test bounds
`attempts` by 100 and every iteration increments it. -/
def retryLoop (rand : Nat → Nat) (word : Word) (st : RetryState) : Option RetryState :=
  if _hloop : (!st.placed && decide (st.attempts < 100)) = true then
    let dir := rand st.drawn % 3
    let row := rand (st.drawn + 1) % 20
    let col := rand (st.drawn + 2) % 20
    match placeWordInGrid st.grid word (row : Int) (col : Int) (toDirection dir) with
    | none => none
    | some (placed, grid') =>
      retryLoop rand word (RetryState.mk placed (st.attempts + 1) grid' (st.drawn + 3))
  else some st
termination_by 100 - st.attempts
decreasing_by
  simp only [Bool.and_eq_true, Bool.not_eq_true', decide_eq_true_eq] at _hloop
  show 100 - (st.attempts + 1) < 100 - st.attempts
  omega

/-- The body of the `for` loop of `generateWordGrid` for one word: the retry
loop from `placed = false`, `attempts = 0`.  The diagnostic written to
`std::cerr` for an unplaced word is not part of the state. -/
def placeOneWord (rand : Nat → Nat) (word : Word) (grid : Grid) (drawn : Nat) :
    Option RetryState :=
  retryLoop rand word (RetryState.mk false 0 grid drawn)

/-- The function `generateWordGrid`: the words are processed in order; the
result is the grid and the number of `rand` calls made so far. -/
def generateWordGrid (rand : Nat → Nat) : List Word → Grid → Nat → Option (Grid × Nat)
  | [], grid, drawn => some (grid, drawn)
  | word :: rest, grid, drawn =>
    match placeOneWord rand word grid drawn with
    | none => none
    | some st => generateWordGrid rand rest st.grid st.drawn

/-! ## fillEmptySpaces -/

/-- The inner loop of `fillEmptySpaces` over the cells of one row:
a blank cell becomes `'A' + rand() % 26`. -/
def fillRow (rand : Nat → Nat) : List Char → Nat → List Char × Nat
  | [], drawn => ([], drawn)
  | cell :: rest, drawn =>
    if cell = ' ' then
      let r := fillRow rand rest (drawn + 1)
      (Char.ofNat ('A'.toNat + rand drawn % 26) :: r.1, r.2)
    else
      let r := fillRow rand rest drawn
      (cell :: r.1, r.2)

/-- The function `fillEmptySpaces`: the outer loop over the rows. -/
def fillEmptySpaces (rand : Nat → Nat) : Grid → Nat → Grid × Nat
  | [], drawn => ([], drawn)
  | rowv :: rest, drawn =>
    let r := fillRow rand rowv drawn
    let r' := fillEmptySpaces rand rest r.2
    (r.1 :: r'.1, r'.2)

/-! ## loadWordsFromFile -/

/-- The function `::toupper` on a character, in the default "C" locale: the
letters 'a'..'z' go to 'A'..'Z', every other character is kept. -/
def toupper (c : Char) : Char := c.toUpper

/-- The loop `while (std::getline(infile, word))` of `loadWordsFromFile`, over
the lines still to be read; `words` is the vector being appended to. -/
def readLines : List Word → List Word → List Word
  | [], words => words
  | word :: rest, words =>
    if word ≠ [] then
      let upper := word.map toupper
      if upper.length ≤ 20 then readLines rest (words ++ [upper])
      else readLines rest words
    else readLines rest words

/-- The function `loadWordsFromFile`.  The file is the sequence of its lines, or
`none` when it cannot be opened, in which case `words` is returned as it is (the
message on `std::cerr` is not modelled). -/
def loadWordsFromFile (infile : Option (List Word)) (words : List Word) : List Word :=
  match infile with
  | none => words
  | some lines => readLines lines words

/-! ## Specification vocabulary -/

/-- The call to `placeWordInGrid` made by attempt number `k` (counted from 0)
of the retry loop for `word`, when `d` draws of `rand` precede the first attempt
and the grid at that attempt is `g`: attempt `k` uses draws `d + 3k` (direction),
`d + 3k + 1` (row) and `d + 3k + 2` (column). -/
def attemptCall (rand : Nat → Nat) (word : Word) (g : Grid) (d k : Nat) :
    Option (Bool × Grid) :=
  placeWordInGrid g word ((rand (d + 3 * k + 1) % 20 : Nat) : Int)
    ((rand (d + 3 * k + 2) % 20 : Nat) : Int) (toDirection (rand (d + 3 * k) % 3))

/-- The bounded-retry discipline in the words of the specification:
`BoundedRetryRun rand words g d gEnd dEnd` says that, from grid `g` after `d`
draws, the words are taken in list order; for each word there are `k` calls with
`1 ≤ k ≤ 100`, the first `k - 1` return false (on the unchanged grid), the `k`-th
returns true or `k = 100`, and the next word starts on the grid left by the
`k`-th call, `3k` draws later. -/
inductive BoundedRetryRun (rand : Nat → Nat) : List Word → Grid → Nat → Grid → Nat → Prop
  | done (g : Grid) (d : Nat) : BoundedRetryRun rand [] g d g d
  | step (word : Word) (rest : List Word) (g : Grid) (d k : Nat) (b : Bool)
      (g' gEnd : Grid) (dEnd : Nat) :
      1 ≤ k → k ≤ 100 →
      (∀ j, j + 1 < k → attemptCall rand word g d j = some (false, g)) →
      attemptCall rand word g d (k - 1) = some (b, g') →
      (b = true ∨ k = 100) →
      BoundedRetryRun rand rest g' (d + 3 * k) gEnd dEnd →
      BoundedRetryRun rand (word :: rest) g d gEnd dEnd

/-- A sequence of calls to `placeWordInGrid`, successful or not, in the words of
the specification: `AfterCalls g g'` says that `g'` is the grid left by zero or
more calls made one after the other, starting on `g`. -/
inductive AfterCalls : Grid → Grid → Prop
  | none (g : Grid) : AfterCalls g g
  | call (g g1 g2 : Grid) (word : Word) (row col : Int) (dir : Direction) (b : Bool) :
      placeWordInGrid g word row col dir = some (b, g1) → AfterCalls g1 g2 → AfterCalls g g2

/-! ## Concrete data for the scenarios of the specification -/

instance : DecidablePred Grid.WF := fun g => by
  unfold Grid.WF
  infer_instance

/-- The word "CAT". -/
def wordCAT : Word := ['C', 'A', 'T']

/-- The word "DOG". -/
def wordDOG : Word := ['D', 'O', 'G']

/-- The word "DIAGONALWORD" (12 characters). -/
def wordDIAGONALWORD : Word := "DIAGONALWORD".toList

/-- The 20x20 grid that holds "CAT" in row 2, columns 2 to 4, and blanks elsewhere. -/
def catGrid : Grid :=
  (List.range 20).map fun r => (List.range 20).map fun c =>
    if r = 2 ∧ c = 2 then 'C' else if r = 2 ∧ c = 3 then 'A'
    else if r = 2 ∧ c = 4 then 'T' else ' '

/-- The 20x20 grid that holds "DIAGONALWORD" on the main diagonal from (0,0)
to (11,11), and blanks elsewhere. -/
def diagonalWordGrid : Grid :=
  (List.range 20).map fun r => (List.range 20).map fun c =>
    if r = c then wordDIAGONALWORD.getD r ' ' else ' '

/-- The 20x20 grid whose cells all hold 'X'. -/
def fullGrid : Grid := List.replicate 20 (List.replicate 20 'X')

/-- A word of ten letters, "ABCDEFGHIJ". -/
def wordTen : Word := "ABCDEFGHIJ".toList

/-! ## Subscripts -/

theorem vecGet?_eq_some {α : Type} (v : List α) (i : Int) (x : α) :
    vecGet? v i = some x ↔ 0 ≤ i ∧ v[i.toNat]? = some x := by
  unfold vecGet?
  split <;> simp [*]

theorem vecGet?_isSome {α : Type} (v : List α) (i : Int) (h0 : 0 ≤ i)
    (h1 : i < (v.length : Int)) : ∃ x, vecGet? v i = some x := by
  have h : i.toNat < v.length := by omega
  exact ⟨v[i.toNat], by simp [vecGet?, h0, List.getElem?_eq_getElem h]⟩

theorem vecGet?_bounds {α : Type} (v : List α) (i : Int) (x : α)
    (h : vecGet? v i = some x) : 0 ≤ i ∧ i < (v.length : Int) := by
  rw [vecGet?_eq_some] at h
  obtain ⟨h0, h1⟩ := h
  have := (List.getElem?_eq_some.mp h1).1
  omega

theorem vecSet?_get {α : Type} (v v' : List α) (i : Int) (x : α)
    (h : vecSet? v i x = some v') (j : Int) :
    vecGet? v' j = if j = i then some x else vecGet? v j := by
  unfold vecSet? at h
  split at h
  · rename_i hi
    simp only [Option.some.injEq] at h
    subst h
    unfold vecGet?
    by_cases hj : 0 ≤ j
    · simp only [hj, if_true]
      by_cases hji : j = i
      · subst hji
        simp [hi.2]
      · have : i.toNat ≠ j.toNat := by omega
        simp [hji, List.getElem?_set_ne this]
    · have : j ≠ i := by omega
      simp [hj, this]
  · simp at h

theorem vecSet?_length {α : Type} (v v' : List α) (i : Int) (x : α)
    (h : vecSet? v i x = some v') : v'.length = v.length := by
  unfold vecSet? at h
  split at h
  · simp only [Option.some.injEq] at h
    subst h
    simp
  · simp at h

theorem vecSet?_isSome {α : Type} (v : List α) (i : Int) (x : α) (h0 : 0 ≤ i)
    (h1 : i < (v.length : Int)) : ∃ v', vecSet? v i x = some v' := by
  have h : i.toNat < v.length := by omega
  exact ⟨v.set i.toNat x, by simp [vecSet?, h0, h]⟩

theorem vecSet?_mem {α : Type} (v v' : List α) (i : Int) (x : α)
    (h : vecSet? v i x = some v') (y : α) (hy : y ∈ v') : y = x ∨ y ∈ v := by
  unfold vecSet? at h
  split at h
  · simp only [Option.some.injEq] at h
    subst h
    rcases List.mem_or_eq_of_mem_set hy with h | h
    · exact Or.inr h
    · exact Or.inl h
  · simp at h

theorem vecGet?_mem {α : Type} (v : List α) (i : Int) (x : α)
    (h : vecGet? v i = some x) : x ∈ v := by
  rw [vecGet?_eq_some] at h
  exact List.getElem?_mem h.2

/-! ## Cells -/

theorem writeCell_read (g g' : Grid) (r c : Int) (x : Char)
    (h : writeCell g r c x = some g') (r' c' : Int) :
    readCell g' r' c' = if r' = r ∧ c' = c then some x else readCell g r' c' := by
  unfold writeCell at h
  split at h
  · simp at h
  · rename_i rowv hrow
    split at h
    · simp at h
    · rename_i rowv' hset
      unfold readCell
      rw [vecSet?_get g g' r rowv' h r']
      by_cases hr : r' = r
      · subst hr
        simp only [if_true, true_and, hrow]
        exact vecSet?_get rowv rowv' c x hset c'
      · simp [hr]

theorem writeCell_WF (g g' : Grid) (r c : Int) (x : Char)
    (h : writeCell g r c x = some g') (hw : g.WF) : g'.WF := by
  unfold writeCell at h
  split at h
  · simp at h
  · rename_i rowv hrow
    split at h
    · simp at h
    · rename_i rowv' hset
      refine ⟨by rw [vecSet?_length g g' r rowv' h]; exact hw.1, ?_⟩
      intro y hy
      rcases vecSet?_mem g g' r rowv' h y hy with h1 | h1
      · rw [h1, vecSet?_length rowv rowv' c x hset]
        exact hw.2 rowv (vecGet?_mem g r rowv hrow)
      · exact hw.2 y h1

theorem readCell_isSome (g : Grid) (hw : g.WF) (r c : Int)
    (hr0 : 0 ≤ r) (hr1 : r < 20) (hc0 : 0 ≤ c) (hc1 : c < 20) :
    ∃ ch, readCell g r c = some ch := by
  obtain ⟨rowv, hrow⟩ := vecGet?_isSome g r hr0 (by rw [hw.1]; exact hr1)
  have hl := hw.2 rowv (vecGet?_mem g r rowv hrow)
  obtain ⟨ch, hch⟩ := vecGet?_isSome rowv c hc0 (by rw [hl]; exact hc1)
  exact ⟨ch, by simp [readCell, hrow, hch]⟩

theorem writeCell_isSome (g : Grid) (hw : g.WF) (r c : Int) (x : Char)
    (hr0 : 0 ≤ r) (hr1 : r < 20) (hc0 : 0 ≤ c) (hc1 : c < 20) :
    ∃ g', writeCell g r c x = some g' := by
  obtain ⟨rowv, hrow⟩ := vecGet?_isSome g r hr0 (by rw [hw.1]; exact hr1)
  have hl := hw.2 rowv (vecGet?_mem g r rowv hrow)
  obtain ⟨rowv', hset⟩ := vecSet?_isSome rowv c x hc0 (by rw [hl]; exact hc1)
  obtain ⟨g', hg⟩ := vecSet?_isSome g r rowv' hr0 (by rw [hw.1]; exact hr1)
  exact ⟨g', by simp [writeCell, hrow, hset, hg]⟩

theorem readCell_bounds (g : Grid) (hw : g.WF) (r c : Int) (ch : Char)
    (h : readCell g r c = some ch) : 0 ≤ r ∧ r < 20 ∧ 0 ≤ c ∧ c < 20 := by
  unfold readCell at h
  split at h
  · simp at h
  · rename_i rowv hrow
    have h1 := vecGet?_bounds g r rowv hrow
    have h2 := vecGet?_bounds rowv c ch h
    rw [hw.1] at h1
    rw [hw.2 rowv (vecGet?_mem g r rowv hrow)] at h2
    omega

theorem blankGrid_WF : blankGrid.WF := by
  refine ⟨by simp [blankGrid], ?_⟩
  intro rowv h
  simp only [blankGrid] at h
  rw [List.eq_of_mem_replicate h]
  simp

theorem readCell_blankGrid (r c : Int) (ch : Char)
    (h : readCell blankGrid r c = some ch) : ch = ' ' := by
  unfold readCell at h
  split at h
  · simp at h
  · rename_i rowv hrow
    have h1 := vecGet?_mem _ _ _ hrow
    simp only [blankGrid] at h1
    rw [List.eq_of_mem_replicate h1] at h
    exact List.eq_of_mem_replicate (vecGet?_mem _ _ _ h)

/-! ## The two loops of placeWordInGrid -/

theorem checkLoop_true (grid : Grid) (word : Word) (row col dRow dCol : Int) :
    ∀ n i, checkLoop grid word row col dRow dCol n i = some true →
      ∀ j, i ≤ j → j < i + n →
        ∃ ch, readCell grid (row + (j : Int) * dRow) (col + (j : Int) * dCol) = some ch ∧
          (ch = ' ' ∨ word[j]? = some ch) := by
  intro n
  induction n with
  | zero => intro i _ j h1 h2; omega
  | succ n ih =>
    intro i h j h1 h2
    unfold checkLoop at h
    split at h
    · simp at h
    · rename_i cur hcur
      by_cases hji : j = i
      · subst hji
        refine ⟨cur, hcur, ?_⟩
        by_cases hb : cur = ' '
        · exact Or.inl hb
        · simp only [ne_eq, hb, not_false_eq_true, if_true] at h
          split at h
          · simp at h
          · rename_i w hw
            by_cases hcw : cur = w
            · exact Or.inr (by rw [hw, hcw])
            · simp [hcw] at h
      · have hrest : checkLoop grid word row col dRow dCol n (i + 1) = some true := by
          by_cases hb : cur = ' '
          · simpa [hb] using h
          · simp only [ne_eq, hb, not_false_eq_true, if_true] at h
            split at h
            · simp at h
            · rename_i w hw
              by_cases hcw : cur = w
              · simpa [hcw] using h
              · simp [hcw] at h
        exact ih (i + 1) hrest j (by omega) (by omega)

theorem checkLoop_false (grid : Grid) (word : Word) (row col dRow dCol : Int) :
    ∀ n i, checkLoop grid word row col dRow dCol n i = some false →
      ∃ j, i ≤ j ∧ j < i + n ∧
        ∃ ch w, readCell grid (row + (j : Int) * dRow) (col + (j : Int) * dCol) = some ch ∧
          word[j]? = some w ∧ ch ≠ ' ' ∧ ch ≠ w := by
  intro n
  induction n with
  | zero => intro i h; simp [checkLoop] at h
  | succ n ih =>
    intro i h
    unfold checkLoop at h
    split at h
    · simp at h
    · rename_i cur hcur
      have hstep : checkLoop grid word row col dRow dCol n (i + 1) = some false →
          ∃ j, i ≤ j ∧ j < i + (n + 1) ∧
            ∃ ch w, readCell grid (row + (j : Int) * dRow) (col + (j : Int) * dCol) = some ch ∧
              word[j]? = some w ∧ ch ≠ ' ' ∧ ch ≠ w := by
        intro hrest
        obtain ⟨j, h1, h2, hj⟩ := ih (i + 1) hrest
        exact ⟨j, by omega, by omega, hj⟩
      by_cases hb : cur = ' '
      · exact hstep (by simpa [hb] using h)
      · simp only [ne_eq, hb, not_false_eq_true, if_true] at h
        split at h
        · simp at h
        · rename_i w hw
          by_cases hcw : cur = w
          · exact hstep (by simpa [hcw] using h)
          · exact ⟨i, le_refl i, by omega, cur, w, hcur, hw, hb, hcw⟩

theorem checkLoop_isSome (grid : Grid) (word : Word) (row col dRow dCol : Int) :
    ∀ n i, i + n ≤ word.length →
      (∀ j, i ≤ j → j < i + n →
        ∃ ch, readCell grid (row + (j : Int) * dRow) (col + (j : Int) * dCol) = some ch) →
      ∃ b, checkLoop grid word row col dRow dCol n i = some b := by
  intro n
  induction n with
  | zero => intro i _ _; exact ⟨true, rfl⟩
  | succ n ih =>
    intro i hlen hread
    obtain ⟨cur, hcur⟩ := hread i (le_refl i) (by omega)
    have hrest := ih (i + 1) (by omega) (fun j h1 h2 => hread j (by omega) (by omega))
    have hi : i < word.length := by omega
    unfold checkLoop
    simp only [hcur, List.getElem?_eq_getElem hi]
    by_cases hb : cur = ' '
    · simpa [hb] using hrest
    · by_cases hcw : cur = word[i]
      · simpa [hb, hcw] using hrest
      · exact ⟨false, by simp [hb, hcw]⟩

theorem placeLoop_frame (word : Word) (row col dRow dCol : Int) :
    ∀ n i (grid g' : Grid), placeLoop word row col dRow dCol n i grid = some g' →
      ∀ r c : Int, (∀ j, i ≤ j → j < i + n →
          ¬ (r = row + (j : Int) * dRow ∧ c = col + (j : Int) * dCol)) →
        readCell g' r c = readCell grid r c := by
  intro n
  induction n with
  | zero =>
    intro i grid g' h r c _
    simp only [placeLoop, Option.some.injEq] at h
    rw [h]
  | succ n ih =>
    intro i grid g' h r c hoff
    unfold placeLoop at h
    split at h
    · simp at h
    · rename_i w hw
      split at h
      · simp at h
      · rename_i g1 hg1
        rw [ih (i + 1) g1 g' h r c (fun j h1 h2 => hoff j (by omega) (by omega)),
          writeCell_read grid g1 _ _ w hg1 r c, if_neg (hoff i (le_refl i) (by omega))]

theorem placeLoop_written (word : Word) (row col dRow dCol : Int)
    (hd : dRow ≠ 0 ∨ dCol ≠ 0) :
    ∀ n i (grid g' : Grid), placeLoop word row col dRow dCol n i grid = some g' →
      ∀ j, i ≤ j → j < i + n →
        ∃ w, word[j]? = some w ∧
          readCell g' (row + (j : Int) * dRow) (col + (j : Int) * dCol) = some w := by
  intro n
  induction n with
  | zero => intro i grid g' _ j h1 h2; omega
  | succ n ih =>
    intro i grid g' h j h1 h2
    unfold placeLoop at h
    split at h
    · simp at h
    · rename_i w hw
      split at h
      · simp at h
      · rename_i g1 hg1
        by_cases hji : j = i
        · subst hji
          refine ⟨w, hw, ?_⟩
          rw [placeLoop_frame word row col dRow dCol n (j + 1) g1 g' h, 
            writeCell_read grid g1 _ _ w hg1]
          · simp
          · intro k hk1 _ hk
            have hkj : ((k : Int) - (j : Int)) ≠ 0 := by omega
            rcases hd with hd | hd
            · have h3 : ((k : Int) - (j : Int)) * dRow = 0 := by linarith [hk.1]
              rcases mul_eq_zero.mp h3 with h4 | h4
              · exact hkj h4
              · exact hd h4
            · have h3 : ((k : Int) - (j : Int)) * dCol = 0 := by linarith [hk.2]
              rcases mul_eq_zero.mp h3 with h4 | h4
              · exact hkj h4
              · exact hd h4
        · exact ih (i + 1) g1 g' h j (by omega) (by omega)

theorem placeLoop_WF (word : Word) (row col dRow dCol : Int) :
    ∀ n i (grid g' : Grid), placeLoop word row col dRow dCol n i grid = some g' →
      grid.WF → g'.WF := by
  intro n
  induction n with
  | zero =>
    intro i grid g' h hw
    simp only [placeLoop, Option.some.injEq] at h
    rw [← h]; exact hw
  | succ n ih =>
    intro i grid g' h hwf
    unfold placeLoop at h
    split at h
    · simp at h
    · rename_i w hw
      split at h
      · simp at h
      · rename_i g1 hg1
        exact ih (i + 1) g1 g' h (writeCell_WF grid g1 _ _ w hg1 hwf)

theorem placeLoop_isSome (word : Word) (row col dRow dCol : Int) :
    ∀ n i (grid : Grid), grid.WF → i + n ≤ word.length →
      (∀ j, i ≤ j → j < i + n →
        0 ≤ row + (j : Int) * dRow ∧ row + (j : Int) * dRow < 20 ∧
        0 ≤ col + (j : Int) * dCol ∧ col + (j : Int) * dCol < 20) →
      ∃ g', placeLoop word row col dRow dCol n i grid = some g' := by
  intro n
  induction n with
  | zero => intro i grid _ _ _; exact ⟨grid, rfl⟩
  | succ n ih =>
    intro i grid hwf hlen hin
    have hi : i < word.length := by omega
    obtain ⟨h1, h2, h3, h4⟩ := hin i (le_refl i) (by omega)
    obtain ⟨g1, hg1⟩ := writeCell_isSome grid hwf _ _ word[i] h1 h2 h3 h4
    obtain ⟨g', hg'⟩ := ih (i + 1) g1 (writeCell_WF grid g1 _ _ _ hg1 hwf) (by omega)
      (fun j h1 h2 => hin j (by omega) (by omega))
    exact ⟨g', by unfold placeLoop; simp only [List.getElem?_eq_getElem hi, hg1, hg']⟩

/-! ## placeWordInGrid as a whole -/

theorem delta_ne_zero (dir : Direction) : dRowOf dir ≠ 0 ∨ dColOf dir ≠ 0 := by
  cases dir <;> simp [dRowOf, dColOf]

theorem path_in_range (word : Word) (row col : Int) (dir : Direction)
    (hr0 : 0 ≤ row) (hr1 : row < 20) (hc0 : 0 ≤ col) (hc1 : col < 20)
    (hend : 0 ≤ row + dRowOf dir * ((word.length : Int) - 1) ∧
      row + dRowOf dir * ((word.length : Int) - 1) < 20 ∧
      0 ≤ col + dColOf dir * ((word.length : Int) - 1) ∧
      col + dColOf dir * ((word.length : Int) - 1) < 20)
    (j : Nat) (hj : j < word.length) :
    0 ≤ row + (j : Int) * dRowOf dir ∧ row + (j : Int) * dRowOf dir < 20 ∧
    0 ≤ col + (j : Int) * dColOf dir ∧ col + (j : Int) * dColOf dir < 20 := by
  cases dir <;> simp only [dRowOf, dColOf, mul_zero, mul_one, one_mul, zero_mul, add_zero] at * <;>
    omega

theorem place_false_grid (grid g' : Grid) (word : Word) (row col : Int) (dir : Direction)
    (h : placeWordInGrid grid word row col dir = some (false, g')) : g' = grid := by
  unfold placeWordInGrid at h
  simp only at h
  split at h
  · simp only [Option.some.injEq, Prod.mk.injEq, true_and] at h
    exact h.symm
  · split at h
    · simp at h
    · simp only [Option.some.injEq, Prod.mk.injEq, true_and] at h
      exact h.symm
    · split at h <;> simp at h

theorem place_true_inv (grid g' : Grid) (word : Word) (row col : Int) (dir : Direction)
    (h : placeWordInGrid grid word row col dir = some (true, g')) :
    (0 ≤ row + dRowOf dir * ((word.length : Int) - 1) ∧
      row + dRowOf dir * ((word.length : Int) - 1) < 20 ∧
      0 ≤ col + dColOf dir * ((word.length : Int) - 1) ∧
      col + dColOf dir * ((word.length : Int) - 1) < 20) ∧
    checkLoop grid word row col (dRowOf dir) (dColOf dir) word.length 0 = some true ∧
    placeLoop word row col (dRowOf dir) (dColOf dir) word.length 0 grid = some g' := by
  unfold placeWordInGrid at h
  simp only [GRID_SIZE] at h
  split at h
  · simp at h
  · rename_i hend
    refine ⟨by omega, ?_⟩
    split at h
    · simp at h
    · simp at h
    · rename_i hchk
      refine ⟨hchk, ?_⟩
      split at h
      · simp at h
      · rename_i g1 hg1
        simp only [Option.some.injEq, Prod.mk.injEq, true_and] at h
        rw [← h]; exact hg1

theorem place_total (grid : Grid) (hw : grid.WF) (word : Word) (row col : Int)
    (dir : Direction) (hr0 : 0 ≤ row) (hr1 : row < 20) (hc0 : 0 ≤ col) (hc1 : col < 20) :
    ∃ b g', placeWordInGrid grid word row col dir = some (b, g') := by
  unfold placeWordInGrid
  simp only [GRID_SIZE]
  split
  · exact ⟨false, grid, rfl⟩
  · rename_i hend
    have hin := path_in_range word row col dir hr0 hr1 hc0 hc1 (by omega)
    obtain ⟨b, hb⟩ := checkLoop_isSome grid word row col (dRowOf dir) (dColOf dir)
      word.length 0 (by omega)
      (fun j _ h2 => by
        obtain ⟨h3, h4, h5, h6⟩ := hin j (by omega)
        exact readCell_isSome grid hw _ _ h3 h4 h5 h6)
    obtain ⟨g1, hg1⟩ := placeLoop_isSome word row col (dRowOf dir) (dColOf dir)
      word.length 0 grid hw (by omega) (fun j _ h2 => hin j (by omega))
    cases b with
    | false => exact ⟨false, grid, by simp [hb]⟩
    | true => exact ⟨true, g1, by simp [hb, hg1]⟩

theorem place_WF (grid g' : Grid) (word : Word) (row col : Int) (dir : Direction) (b : Bool)
    (h : placeWordInGrid grid word row col dir = some (b, g')) (hw : grid.WF) : g'.WF := by
  cases b with
  | false => rw [place_false_grid grid g' word row col dir h]; exact hw
  | true =>
    exact placeLoop_WF word row col _ _ _ _ grid g' (place_true_inv grid g' word row col dir h).2.2 hw

theorem place_written (grid g' : Grid) (word : Word) (row col : Int) (dir : Direction)
    (h : placeWordInGrid grid word row col dir = some (true, g'))
    (i : Nat) (hi : i < word.length) :
    readCell g' (row + (i : Int) * dRowOf dir) (col + (i : Int) * dColOf dir)
      = some (word.get ⟨i, hi⟩) := by
  obtain ⟨w, hw, hr⟩ := placeLoop_written word row col _ _ (delta_ne_zero dir) _ _ grid g'
    (place_true_inv grid g' word row col dir h).2.2 i (Nat.zero_le i) (by omega)
  rw [hr, ← hw, List.getElem?_eq_getElem hi]
  rfl

theorem place_frame (grid g' : Grid) (word : Word) (row col : Int) (dir : Direction) (b : Bool)
    (h : placeWordInGrid grid word row col dir = some (b, g')) (r c : Int)
    (hoff : ∀ j : Nat, j < word.length →
      ¬ (r = row + (j : Int) * dRowOf dir ∧ c = col + (j : Int) * dColOf dir)) :
    readCell g' r c = readCell grid r c := by
  cases b with
  | false => rw [place_false_grid grid g' word row col dir h]
  | true =>
    exact placeLoop_frame word row col _ _ _ _ grid g'
      (place_true_inv grid g' word row col dir h).2.2 r c (fun j _ h2 => hoff j (by omega))

theorem place_fits (grid g' : Grid) (word : Word) (row col : Int) (dir : Direction)
    (h : placeWordInGrid grid word row col dir = some (true, g'))
    (i : Nat) (hi : i < word.length) :
    ∃ ch, readCell grid (row + (i : Int) * dRowOf dir) (col + (i : Int) * dColOf dir) = some ch ∧
      (ch = ' ' ∨ ch = word.get ⟨i, hi⟩) := by
  obtain ⟨ch, h1, h2⟩ := checkLoop_true grid word row col _ _ _ _
    (place_true_inv grid g' word row col dir h).2.1 i (Nat.zero_le i) (by omega)
  refine ⟨ch, h1, ?_⟩
  rcases h2 with h2 | h2
  · exact Or.inl h2
  · rw [List.getElem?_eq_getElem hi] at h2
    exact Or.inr (Option.some.inj h2).symm

theorem place_keeps_nonblank (grid g' : Grid) (word : Word) (row col : Int) (dir : Direction)
    (b : Bool) (h : placeWordInGrid grid word row col dir = some (b, g'))
    (r c : Int) (ch : Char) (hch : readCell grid r c = some ch) (hnb : ch ≠ ' ') :
    readCell g' r c = some ch := by
  cases b with
  | false => rw [place_false_grid grid g' word row col dir h]; exact hch
  | true =>
    by_cases hon : ∃ j : Nat, j < word.length ∧
        r = row + (j : Int) * dRowOf dir ∧ c = col + (j : Int) * dColOf dir
    · obtain ⟨j, hj, hr, hc⟩ := hon
      subst hr; subst hc
      obtain ⟨ch0, h1, h2⟩ := place_fits grid g' word row col dir h j hj
      rw [hch] at h1
      have h3 : ch = ch0 := Option.some.inj h1
      rw [place_written grid g' word row col dir h j hj]
      rcases h2 with h2 | h2
      · exact absurd (h3.trans h2) hnb
      · rw [h3, h2]
    · rw [place_frame grid g' word row col dir true h r c
        (fun j hj hrc => hon ⟨j, hj, hrc.1, hrc.2⟩)]
      exact hch

theorem place_false_inv (grid g' : Grid) (word : Word) (row col : Int) (dir : Direction)
    (h : placeWordInGrid grid word row col dir = some (false, g')) :
    ¬ (0 ≤ row + dRowOf dir * ((word.length : Int) - 1) ∧
      row + dRowOf dir * ((word.length : Int) - 1) < 20 ∧
      0 ≤ col + dColOf dir * ((word.length : Int) - 1) ∧
      col + dColOf dir * ((word.length : Int) - 1) < 20) ∨
    checkLoop grid word row col (dRowOf dir) (dColOf dir) word.length 0 = some false := by
  unfold placeWordInGrid at h
  simp only [GRID_SIZE] at h
  split at h
  · rename_i hend
    exact Or.inl (by omega)
  · split at h
    · simp at h
    · rename_i hchk
      exact Or.inr hchk
    · split at h <;> simp at h

theorem place_true_of_fits (grid : Grid) (hw : grid.WF) (word : Word) (row col : Int)
    (dir : Direction) (hr0 : 0 ≤ row) (hr1 : row < 20) (hc0 : 0 ≤ col) (hc1 : col < 20)
    (hend : 0 ≤ row + dRowOf dir * ((word.length : Int) - 1) ∧
      row + dRowOf dir * ((word.length : Int) - 1) < 20 ∧
      0 ≤ col + dColOf dir * ((word.length : Int) - 1) ∧
      col + dColOf dir * ((word.length : Int) - 1) < 20)
    (hfit : ∀ (i : Nat) (hi : i < word.length), ∃ ch,
      readCell grid (row + (i : Int) * dRowOf dir) (col + (i : Int) * dColOf dir) = some ch ∧
      (ch = ' ' ∨ ch = word.get ⟨i, hi⟩)) :
    ∃ g', placeWordInGrid grid word row col dir = some (true, g') := by
  obtain ⟨b, g', h⟩ := place_total grid hw word row col dir hr0 hr1 hc0 hc1
  cases b with
  | true => exact ⟨g', h⟩
  | false =>
    exfalso
    rcases place_false_inv grid g' word row col dir h with h1 | h1
    · exact h1 hend
    · obtain ⟨j, _, hj, ch, w, hread, hwj, hnb, hne⟩ := checkLoop_false _ _ _ _ _ _ _ _ h1
      have hj' : j < word.length := by omega
      obtain ⟨ch', hread', hor⟩ := hfit j hj'
      rw [hread] at hread'
      have hcc : ch = ch' := Option.some.inj hread'
      rw [List.getElem?_eq_getElem hj'] at hwj
      have hw' : word.get ⟨j, hj'⟩ = w := Option.some.inj hwj
      rcases hor with h2 | h2
      · exact hnb (hcc.trans h2)
      · exact hne (by rw [hcc, h2, hw'])

/-! ## The retry loop -/

theorem attemptCall_zero (rand : Nat → Nat) (word : Word) (g : Grid) (d : Nat) :
    attemptCall rand word g d 0 =
      placeWordInGrid g word ((rand (d + 1) % 20 : Nat) : Int)
        ((rand (d + 2) % 20 : Nat) : Int) (toDirection (rand d % 3)) := by
  simp [attemptCall]

theorem attemptCall_shift (rand : Nat → Nat) (word : Word) (g : Grid) (d k : Nat) :
    attemptCall rand word g (d + 3) k = attemptCall rand word g d (k + 1) := by
  have h : d + 3 + 3 * k = d + 3 * (k + 1) := by ring
  simp only [attemptCall, h]

theorem attemptCall_total (rand : Nat → Nat) (word : Word) (g : Grid) (hw : g.WF)
    (d k : Nat) : ∃ b g', attemptCall rand word g d k = some (b, g') := by
  unfold attemptCall
  exact place_total g hw word _ _ _ (by omega) (by omega) (by omega) (by omega)

theorem retryLoop_placed (rand : Nat → Nat) (word : Word) (st : RetryState)
    (h : st.placed = true) : retryLoop rand word st = some st := by
  rw [retryLoop]
  simp [h]

theorem retryLoop_exhausted (rand : Nat → Nat) (word : Word) (st : RetryState)
    (h : 100 ≤ st.attempts) : retryLoop rand word st = some st := by
  rw [retryLoop]
  have hlt : ¬ st.attempts < 100 := by omega
  simp [hlt]

theorem retryLoop_exit (rand : Nat → Nat) (word : Word) :
    ∀ (n : Nat) (st st' : RetryState), 100 - st.attempts ≤ n →
      retryLoop rand word st = some st' → st'.placed = true ∨ 100 ≤ st'.attempts := by
  intro n
  induction n with
  | zero =>
    intro st st' hn h
    rw [retryLoop_exhausted rand word st (by omega)] at h
    rw [← Option.some.inj h]
    exact Or.inr (by omega)
  | succ m ih =>
    intro st st' hn h
    by_cases hp : st.placed = true
    · rw [retryLoop_placed rand word st hp] at h
      rw [← Option.some.inj h]
      exact Or.inl hp
    · by_cases hlt : st.attempts < 100
      · rw [retryLoop] at h
        simp only [hp, hlt, Bool.not_eq_true, Bool.not_false, Bool.true_and, decide_True,
          dite_true] at h
        split at h
        · simp at h
        · exact ih _ st' (by show 100 - (st.attempts + 1) ≤ m; omega) h
      · rw [retryLoop_exhausted rand word st (by omega)] at h
        rw [← Option.some.inj h]
        exact Or.inr (by omega)

theorem retryLoop_step (rand : Nat → Nat) (word : Word) (attempts : Nat) (g : Grid) (d : Nat)
    (hlt : attempts < 100) (b : Bool) (g1 : Grid)
    (hcall : attemptCall rand word g d 0 = some (b, g1)) :
    retryLoop rand word (RetryState.mk false attempts g d)
      = retryLoop rand word (RetryState.mk b (attempts + 1) g1 (d + 3)) := by
  rw [attemptCall_zero] at hcall
  rw [retryLoop]
  simp only [Bool.not_false, Bool.true_and, decide_eq_true_eq, hlt, dite_true, hcall]

theorem retryLoop_spec (rand : Nat → Nat) (word : Word) :
    ∀ (left attempts : Nat) (g : Grid) (d : Nat), g.WF → 1 ≤ left → attempts + left = 100 →
      ∃ k b g', 1 ≤ k ∧ k ≤ left ∧
        (∀ j, j + 1 < k → attemptCall rand word g d j = some (false, g)) ∧
        attemptCall rand word g d (k - 1) = some (b, g') ∧
        (b = true ∨ k = left) ∧
        retryLoop rand word (RetryState.mk false attempts g d)
          = some (RetryState.mk b (attempts + k) g' (d + 3 * k)) := by
  intro left
  induction left with
  | zero => intro attempts g d _ h; omega
  | succ m ih =>
    intro attempts g d hw _ hsum
    have hlt : attempts < 100 := by omega
    obtain ⟨b, g1, hcall⟩ := attemptCall_total rand word g hw d 0
    have hstep := retryLoop_step rand word attempts g d hlt b g1 hcall
    have hcall' := hcall
    rw [attemptCall_zero] at hcall'
    cases b with
    | true =>
      refine ⟨1, true, g1, le_refl 1, by omega, fun j hj => by omega, hcall, Or.inl rfl, ?_⟩
      rw [hstep, retryLoop_placed rand word _ rfl]
    | false =>
      have hg1 : g1 = g := place_false_grid g g1 word _ _ _ hcall'
      subst hg1
      cases m with
      | zero =>
        refine ⟨1, false, g1, le_refl 1, le_refl 1, fun j hj => by omega, hcall, Or.inr rfl, ?_⟩
        rw [hstep, retryLoop_exhausted rand word _ (by show 100 ≤ attempts + 1; omega)]
      | succ m' =>
        obtain ⟨k, b, g', hk1, hk2, hfirst, hlast, hor, hres⟩ :=
          ih (attempts + 1) g1 (d + 3) hw (by omega) (by omega)
        refine ⟨k + 1, b, g', by omega, by omega, ?_, ?_, ?_, ?_⟩
        · intro j hj
          cases j with
          | zero => exact hcall
          | succ j' =>
            rw [← attemptCall_shift]
            exact hfirst j' (by omega)
        · have hk : k + 1 - 1 = (k - 1) + 1 := by omega
          rw [hk, ← attemptCall_shift]
          exact hlast
        · rcases hor with h1 | h1
          · exact Or.inl h1
          · exact Or.inr (by omega)
        · rw [hstep, hres]
          have e1 : attempts + 1 + k = attempts + (k + 1) := by ring
          have e2 : d + 3 + 3 * k = d + 3 * (k + 1) := by ring
          rw [e1, e2]

theorem placeOneWord_spec (rand : Nat → Nat) (word : Word) (g : Grid) (d : Nat) (hw : g.WF) :
    ∃ k b g', 1 ≤ k ∧ k ≤ 100 ∧
      (∀ j, j + 1 < k → attemptCall rand word g d j = some (false, g)) ∧
      attemptCall rand word g d (k - 1) = some (b, g') ∧
      (b = true ∨ k = 100) ∧
      placeOneWord rand word g d = some (RetryState.mk b k g' (d + 3 * k)) := by
  obtain ⟨k, b, g', h1, h2, h3, h4, h5, h6⟩ :=
    retryLoop_spec rand word 100 0 g d hw (by omega) (by omega)
  refine ⟨k, b, g', h1, h2, h3, h4, h5, ?_⟩
  unfold placeOneWord
  rw [h6, Nat.zero_add]

theorem generateWordGrid_run (rand : Nat → Nat) :
    ∀ (words : List Word) (g : Grid) (d : Nat), g.WF →
      ∃ gEnd dEnd, generateWordGrid rand words g d = some (gEnd, dEnd) ∧ gEnd.WF ∧
        BoundedRetryRun rand words g d gEnd dEnd := by
  intro words
  induction words with
  | nil => intro g d hw; exact ⟨g, d, rfl, hw, BoundedRetryRun.done g d⟩
  | cons word rest ih =>
    intro g d hw
    obtain ⟨k, b, g', h1, h2, h3, h4, h5, h6⟩ := placeOneWord_spec rand word g d hw
    have hw' : g'.WF := place_WF g g' word _ _ _ b h4 hw
    obtain ⟨gEnd, dEnd, hgen, hwEnd, hrun⟩ := ih g' (d + 3 * k) hw'
    refine ⟨gEnd, dEnd, ?_, hwEnd,
      BoundedRetryRun.step word rest g d k b g' gEnd dEnd h1 h2 h3 h4 h5 hrun⟩
    simp [generateWordGrid, h6, hgen]

theorem run_keeps_nonblank (rand : Nat → Nat) (words : List Word) (g gEnd : Grid)
    (d dEnd : Nat) (h : BoundedRetryRun rand words g d gEnd dEnd)
    (r c : Int) (ch : Char) (hch : readCell g r c = some ch) (hnb : ch ≠ ' ') :
    readCell gEnd r c = some ch := by
  induction h with
  | done g d => exact hch
  | step word rest g d k b g' gEnd dEnd _ _ _ hlast _ _ ih =>
    exact ih (place_keeps_nonblank g g' word _ _ _ b hlast r c ch hch hnb)

/-! ## fillEmptySpaces, cell by cell -/

theorem fill_letter (k : Nat) :
    Char.ofNat ('A'.toNat + k % 26) ≠ ' ' ∧
      'A' ≤ Char.ofNat ('A'.toNat + k % 26) ∧ Char.ofNat ('A'.toNat + k % 26) ≤ 'Z' := by
  have h : ∀ m, m < 26 → Char.ofNat ('A'.toNat + m) ≠ ' ' ∧
      'A' ≤ Char.ofNat ('A'.toNat + m) ∧ Char.ofNat ('A'.toNat + m) ≤ 'Z' := by decide
  exact h (k % 26) (Nat.mod_lt k (by decide))

theorem fillRow_spec (rand : Nat → Nat) :
    ∀ (rowv : List Char) (d : Nat),
      (fillRow rand rowv d).1.length = rowv.length ∧
      ∀ (k : Nat) (ch : Char), (fillRow rand rowv d).1[k]? = some ch →
        ch ≠ ' ' ∧ ∃ old, rowv[k]? = some old ∧
          (old = ' ' → 'A' ≤ ch ∧ ch ≤ 'Z') ∧ (old ≠ ' ' → ch = old) := by
  intro rowv
  induction rowv with
  | nil => intro d; simp [fillRow]
  | cons cell rest ih =>
    intro d
    by_cases hb : cell = ' '
    · obtain ⟨hl, hk⟩ := ih (d + 1)
      refine ⟨by simp [fillRow, hb, hl], ?_⟩
      intro k ch h
      cases k with
      | zero =>
        simp only [fillRow, hb, if_true, List.getElem?_cons_zero, Option.some.injEq] at h
        subst h
        exact ⟨(fill_letter (rand d)).1, ' ', by simp [hb],
          fun _ => (fill_letter (rand d)).2, fun hne => absurd rfl hne⟩
      | succ k' =>
        simp only [fillRow, hb, if_true, List.getElem?_cons_succ] at h
        simpa using hk k' ch h
    · obtain ⟨hl, hk⟩ := ih d
      refine ⟨by simp [fillRow, hb, hl], ?_⟩
      intro k ch h
      cases k with
      | zero =>
        simp only [fillRow, hb, if_false, List.getElem?_cons_zero, Option.some.injEq] at h
        subst h
        exact ⟨hb, cell, by simp, fun h0 => absurd h0 hb, fun _ => rfl⟩
      | succ k' =>
        simp only [fillRow, hb, if_false, List.getElem?_cons_succ] at h
        simpa using hk k' ch h

theorem fillEmptySpaces_rows (rand : Nat → Nat) :
    ∀ (g : Grid) (d : Nat),
      (fillEmptySpaces rand g d).1.length = g.length ∧
      ∀ (k : Nat) (rowv' : List Char), (fillEmptySpaces rand g d).1[k]? = some rowv' →
        ∃ rowv d', g[k]? = some rowv ∧ rowv' = (fillRow rand rowv d').1 := by
  intro g
  induction g with
  | nil => intro d; simp [fillEmptySpaces]
  | cons rowv rest ih =>
    intro d
    obtain ⟨hl, hk⟩ := ih (fillRow rand rowv d).2
    refine ⟨by simp [fillEmptySpaces, hl], ?_⟩
    intro k rowv' h
    cases k with
    | zero =>
      simp only [fillEmptySpaces, List.getElem?_cons_zero, Option.some.injEq] at h
      exact ⟨rowv, d, by simp, h.symm⟩
    | succ k' =>
      simp only [fillEmptySpaces, List.getElem?_cons_succ] at h
      simpa using hk k' rowv' h

theorem fillEmptySpaces_cell (rand : Nat → Nat) (g : Grid) (d : Nat) (r c : Int) (ch : Char)
    (h : readCell (fillEmptySpaces rand g d).1 r c = some ch) :
    ch ≠ ' ' ∧ ∃ old, readCell g r c = some old ∧
      (old = ' ' → 'A' ≤ ch ∧ ch ≤ 'Z') ∧ (old ≠ ' ' → ch = old) := by
  unfold readCell at h
  split at h
  · simp at h
  · rename_i rowv' hrow'
    rw [vecGet?_eq_some] at hrow' h
    obtain ⟨rowv, d', hrow, hfill⟩ := (fillEmptySpaces_rows rand g d).2 _ _ hrow'.2
    subst hfill
    obtain ⟨hnb, old, hold, hrest⟩ := (fillRow_spec rand rowv d').2 _ _ h.2
    refine ⟨hnb, old, ?_, hrest⟩
    have h1 : vecGet? g r = some rowv := (vecGet?_eq_some g r rowv).mpr ⟨hrow'.1, hrow⟩
    have h2 : vecGet? rowv c = some old := (vecGet?_eq_some rowv c old).mpr ⟨h.1, hold⟩
    simp [readCell, h1, h2]

theorem fillEmptySpaces_WF (rand : Nat → Nat) (g : Grid) (d : Nat) (hw : g.WF) :
    (fillEmptySpaces rand g d).1.WF := by
  obtain ⟨hl, hk⟩ := fillEmptySpaces_rows rand g d
  refine ⟨by rw [hl]; exact hw.1, ?_⟩
  intro rowv' hmem
  obtain ⟨k, hk'⟩ := List.getElem?_of_mem hmem
  obtain ⟨rowv, d', hrow, hfill⟩ := hk k rowv' hk'
  rw [hfill, (fillRow_spec rand rowv d').1]
  exact hw.2 rowv (List.getElem?_mem hrow)

/-! ## selectRandomWords -/

theorem resize_length (v : List Word) (n : Nat) : (resize v n).length = n := by
  simp only [resize, List.length_append, List.length_take, List.length_replicate]
  omega

theorem selectRandomWords_eq (shuffle : Nat → List Word → List Word) (rand : Nat → Nat)
    (drawn : Nat) (allWords : List Word) (minWords maxWords : Int) (hmin : 0 ≤ minWords) :
    selectRandomWords shuffle rand drawn allWords minWords maxWords =
      some (resize (shuffle (rand drawn) allWords)
        (if min (allWords.length : Int) maxWords < minWords then minWords
          else min (allWords.length : Int) maxWords).toNat, drawn + 1) := by
  unfold selectRandomWords
  simp only
  rw [if_neg]
  split <;> omega

/-! ## Placement contract -/

/-- C1. Placement is all-or-nothing: on a 20x20 grid, for every word, every
start cell inside the grid and every direction, `placeWordInGrid` returns (no
subscript is out of range), and if it returns false the grid after the call is
the grid before the call. -/
theorem placeWordInGrid_all_or_nothing (grid : Grid) (word : Word) (row col : Int)
    (dir : Direction) (hw : grid.WF)
    (hr0 : 0 ≤ row) (hr1 : row < 20) (hc0 : 0 ≤ col) (hc1 : col < 20) :
    ∃ b g', placeWordInGrid grid word row col dir = some (b, g') ∧
      (b = false → g' = grid) := by
  obtain ⟨b, g', h⟩ := place_total grid hw word row col dir hr0 hr1 hc0 hc1
  refine ⟨b, g', h, ?_⟩
  intro hb
  subst hb
  exact place_false_grid grid g' word row col dir h

/-- Witness for C1: on the grid holding only "CAT", "DOG" vertical at (0,4). -/
theorem placeWordInGrid_all_or_nothing_witness :
    catGrid.WF ∧ (0 : Int) ≤ 0 ∧ (0 : Int) < 20 ∧ (0 : Int) ≤ 4 ∧ (4 : Int) < 20 ∧
      ∃ b g', placeWordInGrid catGrid wordDOG 0 4 .VERTICAL = some (b, g') ∧
        (b = false → g' = catGrid) :=
  ⟨by decide, by decide, by decide, by decide, by decide,
    placeWordInGrid_all_or_nothing catGrid wordDOG 0 4 .VERTICAL
      (by decide) (by decide) (by decide) (by decide) (by decide)⟩

/-- C2. If `placeWordInGrid` returns true, then for every index `i` below the
word's length the cell `(row + i*dRow, col + i*dCol)` of the resulting grid
holds `word[i]`, where `(dRow, dCol)` is (0,1) for horizontal, (1,0) for vertical
and (1,1) for diagonal. -/
theorem placeWordInGrid_reads_back (grid g' : Grid) (word : Word) (row col : Int)
    (dir : Direction) (h : placeWordInGrid grid word row col dir = some (true, g')) :
    ((dRowOf .HORIZONTAL, dColOf .HORIZONTAL) = (0, 1) ∧
      (dRowOf .VERTICAL, dColOf .VERTICAL) = (1, 0) ∧
      (dRowOf .DIAGONAL, dColOf .DIAGONAL) = (1, 1)) ∧
    ∀ (i : Nat) (hi : i < word.length),
      readCell g' (row + (i : Int) * dRowOf dir) (col + (i : Int) * dColOf dir)
        = some (word.get ⟨i, hi⟩) :=
  ⟨⟨rfl, rfl, rfl⟩, fun i hi => place_written grid g' word row col dir h i hi⟩

/-- Witness for C2: on the blank grid, "DIAGONALWORD" at (0,0) diagonal succeeds
and the cells (0,0), (1,1), ..., (11,11) hold its 12 characters in order. -/
theorem placeWordInGrid_reads_back_witness :
    placeWordInGrid blankGrid wordDIAGONALWORD 0 0 .DIAGONAL = some (true, diagonalWordGrid) ∧
    (((dRowOf .HORIZONTAL, dColOf .HORIZONTAL) = (0, 1) ∧
      (dRowOf .VERTICAL, dColOf .VERTICAL) = (1, 0) ∧
      (dRowOf .DIAGONAL, dColOf .DIAGONAL) = (1, 1)) ∧
    ∀ (i : Nat) (hi : i < wordDIAGONALWORD.length),
      readCell diagonalWordGrid (0 + (i : Int) * dRowOf .DIAGONAL)
        (0 + (i : Int) * dColOf .DIAGONAL) = some (wordDIAGONALWORD.get ⟨i, hi⟩)) :=
  ⟨by decide,
    placeWordInGrid_reads_back blankGrid diagonalWordGrid wordDIAGONALWORD 0 0 .DIAGONAL
      (by decide)⟩

/-- C3. Exact success condition: on a 20x20 grid, for every word (empty or
not), every start cell inside the grid and every direction, `placeWordInGrid`
returns, and it returns true if and only if (1) the end cell
`start + delta*(length-1)` is inside the grid on both axes and (2) every cell on
the path is blank or already holds the corresponding letter of the word. -/
theorem placeWordInGrid_true_iff (grid : Grid) (word : Word) (row col : Int)
    (dir : Direction) (hw : grid.WF)
    (hr0 : 0 ≤ row) (hr1 : row < 20) (hc0 : 0 ≤ col) (hc1 : col < 20) :
    ∃ b g', placeWordInGrid grid word row col dir = some (b, g') ∧
      (b = true ↔
        ((0 ≤ row + dRowOf dir * ((word.length : Int) - 1) ∧
          row + dRowOf dir * ((word.length : Int) - 1) < 20 ∧
          0 ≤ col + dColOf dir * ((word.length : Int) - 1) ∧
          col + dColOf dir * ((word.length : Int) - 1) < 20) ∧
        ∀ (i : Nat) (hi : i < word.length), ∃ ch,
          readCell grid (row + (i : Int) * dRowOf dir) (col + (i : Int) * dColOf dir)
            = some ch ∧ (ch = ' ' ∨ ch = word.get ⟨i, hi⟩))) := by
  obtain ⟨b, g', h⟩ := place_total grid hw word row col dir hr0 hr1 hc0 hc1
  refine ⟨b, g', h, ?_, ?_⟩
  · intro hb
    subst hb
    exact ⟨(place_true_inv grid g' word row col dir h).1,
      fun i hi => place_fits grid g' word row col dir h i hi⟩
  · intro hcond
    obtain ⟨g'', h'⟩ :=
      place_true_of_fits grid hw word row col dir hr0 hr1 hc0 hc1 hcond.1 hcond.2
    rw [h] at h'
    exact (Prod.mk.inj (Option.some.inj h')).1

/-- Witness for C3: "CAT" horizontal at (2,2) on the grid that already holds
"CAT" there. -/
theorem placeWordInGrid_true_iff_witness :
    catGrid.WF ∧ (0 : Int) ≤ 2 ∧ (2 : Int) < 20 ∧
      ∃ b g', placeWordInGrid catGrid wordCAT 2 2 .HORIZONTAL = some (b, g') ∧
        (b = true ↔
          ((0 ≤ 2 + dRowOf .HORIZONTAL * ((wordCAT.length : Int) - 1) ∧
            2 + dRowOf .HORIZONTAL * ((wordCAT.length : Int) - 1) < 20 ∧
            0 ≤ 2 + dColOf .HORIZONTAL * ((wordCAT.length : Int) - 1) ∧
            2 + dColOf .HORIZONTAL * ((wordCAT.length : Int) - 1) < 20) ∧
          ∀ (i : Nat) (hi : i < wordCAT.length), ∃ ch,
            readCell catGrid (2 + (i : Int) * dRowOf .HORIZONTAL)
              (2 + (i : Int) * dColOf .HORIZONTAL)
              = some ch ∧ (ch = ' ' ∨ ch = wordCAT.get ⟨i, hi⟩))) :=
  ⟨by decide, by decide, by decide,
    placeWordInGrid_true_iff catGrid wordCAT 2 2 .HORIZONTAL
      (by decide) (by decide) (by decide) (by decide) (by decide)⟩

/-- C4. No conflicting overwrite: on a 20x20 grid, for every word, start cell
inside the grid and direction, `placeWordInGrid` returns and every cell that is
non-blank before the call holds the same character after it, whether the flag is
true or false; and for every word list and every sequence of random draws
`generateWordGrid` returns and every cell that is non-blank before it holds the
same character after it. -/
theorem nonblank_cells_preserved (grid : Grid) (hw : grid.WF) :
    (∀ (word : Word) (row col : Int) (dir : Direction),
      0 ≤ row → row < 20 → 0 ≤ col → col < 20 →
      ∃ b g', placeWordInGrid grid word row col dir = some (b, g') ∧
        ∀ (r c : Int) (ch : Char), readCell grid r c = some ch → ch ≠ ' ' →
          readCell g' r c = some ch) ∧
    (∀ (rand : Nat → Nat) (words : List Word) (drawn : Nat),
      ∃ gEnd dEnd, generateWordGrid rand words grid drawn = some (gEnd, dEnd) ∧
        ∀ (r c : Int) (ch : Char), readCell grid r c = some ch → ch ≠ ' ' →
          readCell gEnd r c = some ch) := by
  constructor
  · intro word row col dir hr0 hr1 hc0 hc1
    obtain ⟨b, g', h⟩ := place_total grid hw word row col dir hr0 hr1 hc0 hc1
    exact ⟨b, g', h, fun r c ch hch hnb =>
      place_keeps_nonblank grid g' word row col dir b h r c ch hch hnb⟩
  · intro rand words drawn
    obtain ⟨gEnd, dEnd, hgen, _, hrun⟩ := generateWordGrid_run rand words grid drawn hw
    exact ⟨gEnd, dEnd, hgen, fun r c ch hch hnb =>
      run_keeps_nonblank rand words grid gEnd drawn dEnd hrun r c ch hch hnb⟩

/-- Witness for C4: the grid that holds only "CAT". -/
theorem nonblank_cells_preserved_witness :
    catGrid.WF ∧
    ((∀ (word : Word) (row col : Int) (dir : Direction),
      0 ≤ row → row < 20 → 0 ≤ col → col < 20 →
      ∃ b g', placeWordInGrid catGrid word row col dir = some (b, g') ∧
        ∀ (r c : Int) (ch : Char), readCell catGrid r c = some ch → ch ≠ ' ' →
          readCell g' r c = some ch) ∧
    (∀ (rand : Nat → Nat) (words : List Word) (drawn : Nat),
      ∃ gEnd dEnd, generateWordGrid rand words catGrid drawn = some (gEnd, dEnd) ∧
        ∀ (r c : Int) (ch : Char), readCell catGrid r c = some ch → ch ≠ ' ' →
          readCell gEnd r c = some ch)) :=
  ⟨by decide, nonblank_cells_preserved catGrid (by decide)⟩

/-! ## Crossing words -/

theorem letter_ne_blank (ch : Char) (h : 'A' ≤ ch) : ch ≠ ' ' := by
  intro hb
  subst hb
  exact absurd h (by decide)

theorem placed_on_blank (g1 : Grid) (word : Word) (row col : Int) (dir : Direction)
    (h : placeWordInGrid blankGrid word row col dir = some (true, g1))
    (r c : Int) (ch : Char) (hch : readCell g1 r c = some ch) :
    ch = ' ' ∨ ∃ (i : Nat) (hi : i < word.length),
      r = row + (i : Int) * dRowOf dir ∧ c = col + (i : Int) * dColOf dir ∧
        ch = word.get ⟨i, hi⟩ := by
  by_cases hon : ∃ i : Nat, i < word.length ∧
      r = row + (i : Int) * dRowOf dir ∧ c = col + (i : Int) * dColOf dir
  · obtain ⟨i, hi, hr, hc⟩ := hon
    refine Or.inr ⟨i, hi, hr, hc, ?_⟩
    have hwr := place_written blankGrid g1 word row col dir h i hi
    rw [← hr, ← hc, hch] at hwr
    exact Option.some.inj hwr
  · rw [place_frame blankGrid g1 word row col dir true h r c
      (fun i hi hrc => hon ⟨i, hi, hrc.1, hrc.2⟩)] at hch
    exact Or.inl (readCell_blankGrid r c ch hch)

/-- C5. Crossing words.  Let a first word of letters A-Z be placed
successfully on the blank 20x20 grid, giving `g1`, and let a second word have its
whole path inside the grid and share at least one cell with the first word's
path.  If the two words have the same letter at every shared cell, placing the
second word on `g1` succeeds and every shared cell then holds both words'
letters; if they differ at some shared cell, the second placement returns false
and leaves `g1` unchanged.  (The alphabet of the second word plays no part.) -/
theorem crossing_words (w1 w2 : Word) (r1 c1 r2 c2 : Int) (d1 d2 : Direction) (g1 : Grid)
    (hA1 : ∀ ch ∈ w1, 'A' ≤ ch ∧ ch ≤ 'Z')
    (h1 : placeWordInGrid blankGrid w1 r1 c1 d1 = some (true, g1))
    (hin : ∀ j : Nat, j < w2.length →
      0 ≤ r2 + (j : Int) * dRowOf d2 ∧ r2 + (j : Int) * dRowOf d2 < 20 ∧
      0 ≤ c2 + (j : Int) * dColOf d2 ∧ c2 + (j : Int) * dColOf d2 < 20)
    (hx : ∃ i j : Nat, i < w1.length ∧ j < w2.length ∧
      r1 + (i : Int) * dRowOf d1 = r2 + (j : Int) * dRowOf d2 ∧
      c1 + (i : Int) * dColOf d1 = c2 + (j : Int) * dColOf d2) :
    ((∀ (i j : Nat) (hi : i < w1.length) (hj : j < w2.length),
        r1 + (i : Int) * dRowOf d1 = r2 + (j : Int) * dRowOf d2 →
        c1 + (i : Int) * dColOf d1 = c2 + (j : Int) * dColOf d2 →
        w1.get ⟨i, hi⟩ = w2.get ⟨j, hj⟩) →
      ∃ g2, placeWordInGrid g1 w2 r2 c2 d2 = some (true, g2) ∧
        ∀ (i j : Nat) (hi : i < w1.length) (hj : j < w2.length),
          r1 + (i : Int) * dRowOf d1 = r2 + (j : Int) * dRowOf d2 →
          c1 + (i : Int) * dColOf d1 = c2 + (j : Int) * dColOf d2 →
          readCell g2 (r2 + (j : Int) * dRowOf d2) (c2 + (j : Int) * dColOf d2)
            = some (w1.get ⟨i, hi⟩) ∧
          readCell g2 (r2 + (j : Int) * dRowOf d2) (c2 + (j : Int) * dColOf d2)
            = some (w2.get ⟨j, hj⟩)) ∧
    ((∃ (i j : Nat) (hi : i < w1.length) (hj : j < w2.length),
        r1 + (i : Int) * dRowOf d1 = r2 + (j : Int) * dRowOf d2 ∧
        c1 + (i : Int) * dColOf d1 = c2 + (j : Int) * dColOf d2 ∧
        w1.get ⟨i, hi⟩ ≠ w2.get ⟨j, hj⟩) →
      placeWordInGrid g1 w2 r2 c2 d2 = some (false, g1)) := by
  have hw1 : g1.WF := place_WF blankGrid g1 w1 r1 c1 d1 true h1 blankGrid_WF
  obtain ⟨_, j0, _, hj0, _, _⟩ := hx
  have hpos : 0 < w2.length := by omega
  have hstart := hin 0 hpos
  simp only [Nat.cast_zero, zero_mul, add_zero] at hstart
  obtain ⟨hr0, hr1, hc0, hc1⟩ := hstart
  have hend := hin (w2.length - 1) (by omega)
  have hcast : ((w2.length - 1 : Nat) : Int) = (w2.length : Int) - 1 := by omega
  rw [hcast, mul_comm _ (dRowOf d2), mul_comm _ (dColOf d2)] at hend
  constructor
  · intro hagree
    have hfit : ∀ (j : Nat) (hj : j < w2.length), ∃ ch,
        readCell g1 (r2 + (j : Int) * dRowOf d2) (c2 + (j : Int) * dColOf d2) = some ch ∧
        (ch = ' ' ∨ ch = w2.get ⟨j, hj⟩) := by
      intro j hj
      obtain ⟨h3, h4, h5, h6⟩ := hin j hj
      obtain ⟨ch, hch⟩ := readCell_isSome g1 hw1 _ _ h3 h4 h5 h6
      refine ⟨ch, hch, ?_⟩
      rcases placed_on_blank g1 w1 r1 c1 d1 h1 _ _ ch hch with hb | ⟨i, hi, hr, hc, he⟩
      · exact Or.inl hb
      · exact Or.inr (he.trans (hagree i j hi hj hr.symm hc.symm))
    obtain ⟨g2, h2⟩ := place_true_of_fits g1 hw1 w2 r2 c2 d2 hr0 hr1 hc0 hc1 hend hfit
    refine ⟨g2, h2, ?_⟩
    intro i j hi hj hr hc
    have hwr := place_written g1 g2 w2 r2 c2 d2 h2 j hj
    exact ⟨by rw [hwr, hagree i j hi hj hr hc], hwr⟩
  · rintro ⟨i, j, hi, hj, hr, hc, hne⟩
    obtain ⟨b, g2, h2⟩ := place_total g1 hw1 w2 r2 c2 d2 hr0 hr1 hc0 hc1
    cases b with
    | false =>
      rw [h2, place_false_grid g1 g2 w2 r2 c2 d2 h2]
    | true =>
      exfalso
      obtain ⟨ch, hch, hor⟩ := place_fits g1 g2 w2 r2 c2 d2 h2 j hj
      have hwr := place_written blankGrid g1 w1 r1 c1 d1 h1 i hi
      rw [hr, hc, hch] at hwr
      have hcw : ch = w1.get ⟨i, hi⟩ := Option.some.inj hwr
      rcases hor with hb | he
      · exact letter_ne_blank _ (hA1 _ (List.get_mem w1 i hi)).1 (hcw.symm.trans hb)
      · exact hne (hcw.symm.trans he)

/-- Witness for C5: after "CAT" horizontal at (2,2), "DOG" vertical at (0,4)
meets it at cell (2,4), where 'T' differs from 'G'; the call returns false and
the grid still holds only "CAT". -/
theorem crossing_words_witness :
    placeWordInGrid blankGrid wordCAT 2 2 .HORIZONTAL = some (true, catGrid) ∧
    readCell catGrid 2 4 = some 'T' ∧ wordDOG.get ⟨2, by decide⟩ = 'G' ∧
    placeWordInGrid catGrid wordDOG 0 4 .VERTICAL = some (false, catGrid) :=
  ⟨by decide, by decide, by decide,
    (crossing_words wordCAT wordDOG 2 2 0 4 .HORIZONTAL .VERTICAL catGrid
      (by decide) (by decide) (by decide) ⟨2, 2, by decide, by decide, by decide, by decide⟩).2
      ⟨2, 2, by decide, by decide, by decide, by decide, by decide⟩⟩

/-! ## Word selection -/

/-- C6. On candidates ["CAT", "DOG"] with minWords = 10 and maxWords = 20, for
every outcome of the shuffle (any permutation of the candidates),
`selectRandomWords` returns a sequence that contains the empty string, which is
not among the candidates: the count is raised to 10 and `resize` pads the two
shuffled candidates with empty strings. -/
theorem selectRandomWords_pads_with_absent_word (shuffle : Nat → List Word → List Word)
    (hperm : ∀ seed l, (shuffle seed l).Perm l) (rand : Nat → Nat) (drawn : Nat) :
    ∃ sel, selectRandomWords shuffle rand drawn [wordCAT, wordDOG] 10 20
        = some (sel, drawn + 1) ∧
      sel.length = 10 ∧ ([] : Word) ∈ sel ∧ ([] : Word) ∉ [wordCAT, wordDOG] := by
  refine ⟨_, selectRandomWords_eq shuffle rand drawn [wordCAT, wordDOG] 10 20 (by decide),
    resize_length _ _, ?_, by decide⟩
  have hl : (shuffle (rand drawn) [wordCAT, wordDOG]).length = 2 :=
    (hperm (rand drawn) [wordCAT, wordDOG]).length_eq
  have hn : (if min (([wordCAT, wordDOG] : List Word).length : Int) 20 < 10 then (10 : Int)
      else min (([wordCAT, wordDOG] : List Word).length : Int) 20).toNat = 10 := by decide
  rw [hn]
  unfold resize
  rw [hl]
  exact List.mem_append_right _ (by decide)

/-- Witness for C6, with the shuffle that reverses its argument. -/
theorem selectRandomWords_pads_with_absent_word_witness :
    ∃ sel, selectRandomWords (fun _ l => l.reverse) (fun _ => 0) 0 [wordCAT, wordDOG] 10 20
        = some (sel, 0 + 1) ∧
      sel.length = 10 ∧ ([] : Word) ∈ sel ∧ ([] : Word) ∉ [wordCAT, wordDOG] :=
  selectRandomWords_pads_with_absent_word (fun _ l => l.reverse)
    (fun _ l => List.reverse_perm l) (fun _ => 0) 0

/-- C7. For every candidate list, every `minWords ≥ 0` and `maxWords`, and
every outcome of the shuffle, `selectRandomWords` returns a sequence whose length
is `min(candidateCount, maxWords)`, unless that value is below `minWords`, in
which case the length is `minWords`; when `minWords ≤ maxWords` the length lies
in `[minWords, maxWords]`. -/
theorem selectRandomWords_length (shuffle : Nat → List Word → List Word)
    (rand : Nat → Nat) (drawn : Nat) (allWords : List Word) (minWords maxWords : Int)
    (hmin : 0 ≤ minWords) :
    ∃ sel, selectRandomWords shuffle rand drawn allWords minWords maxWords
        = some (sel, drawn + 1) ∧
      (sel.length : Int) =
        (if min (allWords.length : Int) maxWords < minWords then minWords
          else min (allWords.length : Int) maxWords) ∧
      (minWords ≤ maxWords → minWords ≤ (sel.length : Int) ∧ (sel.length : Int) ≤ maxWords) := by
  refine ⟨_, selectRandomWords_eq shuffle rand drawn allWords minWords maxWords hmin, ?_, ?_⟩
  · rw [resize_length]
    split <;> omega
  · intro hle
    rw [resize_length]
    split <;> omega

/-- Witness for C7: candidates ["CAT", "DOG"], minWords = 10, maxWords = 20. -/
theorem selectRandomWords_length_witness :
    (0 : Int) ≤ 10 ∧
    ∃ sel, selectRandomWords (fun _ l => l.reverse) (fun _ => 0) 0 [wordCAT, wordDOG] 10 20
        = some (sel, 0 + 1) ∧
      (sel.length : Int) =
        (if min (([wordCAT, wordDOG] : List Word).length : Int) 20 < 10 then 10
          else min (([wordCAT, wordDOG] : List Word).length : Int) 20) ∧
      ((10 : Int) ≤ 20 → 10 ≤ (sel.length : Int) ∧ (sel.length : Int) ≤ 20) :=
  ⟨by decide, selectRandomWords_length (fun _ l => l.reverse) (fun _ => 0) 0
    [wordCAT, wordDOG] 10 20 (by decide)⟩

/-! ## Noise fill -/

/-- C8. For every 20x20 grid and every sequence of random draws, after
`fillEmptySpaces` the grid is still 20x20, every cell of it holds a character
other than blank, and every cell that was blank before the call holds one of the
letters 'A'..'Z'. -/
theorem fillEmptySpaces_no_blank (rand : Nat → Nat) (grid : Grid) (drawn : Nat)
    (hw : grid.WF) :
    (fillEmptySpaces rand grid drawn).1.WF ∧
    ∀ r c : Int, 0 ≤ r → r < 20 → 0 ≤ c → c < 20 →
      ∃ ch, readCell (fillEmptySpaces rand grid drawn).1 r c = some ch ∧ ch ≠ ' ' ∧
        (readCell grid r c = some ' ' → 'A' ≤ ch ∧ ch ≤ 'Z') := by
  have hw' := fillEmptySpaces_WF rand grid drawn hw
  refine ⟨hw', ?_⟩
  intro r c hr0 hr1 hc0 hc1
  obtain ⟨ch, hch⟩ := readCell_isSome _ hw' r c hr0 hr1 hc0 hc1
  obtain ⟨hnb, old, hold, hup, _⟩ := fillEmptySpaces_cell rand grid drawn r c ch hch
  refine ⟨ch, hch, hnb, ?_⟩
  intro hblank
  rw [hold] at hblank
  exact hup (Option.some.inj hblank)

/-- Witness for C8: the grid that holds only "CAT", with every draw equal to 7. -/
theorem fillEmptySpaces_no_blank_witness :
    catGrid.WF ∧
    ((fillEmptySpaces (fun _ => 7) catGrid 0).1.WF ∧
    ∀ r c : Int, 0 ≤ r → r < 20 → 0 ≤ c → c < 20 →
      ∃ ch, readCell (fillEmptySpaces (fun _ => 7) catGrid 0).1 r c = some ch ∧ ch ≠ ' ' ∧
        (readCell catGrid r c = some ' ' → 'A' ≤ ch ∧ ch ≤ 'Z')) :=
  ⟨by decide, fillEmptySpaces_no_blank (fun _ => 7) catGrid 0 (by decide)⟩

/-! ## The placement driver -/

/-- C9. Bounded retry: for every word list, every 20x20 starting grid and every
sequence of random draws, `generateWordGrid` returns, and its run follows the
bounded-retry discipline: the words are taken in list order, and for each word
there are `k` calls to `placeWordInGrid` with `1 ≤ k ≤ 100`, of which the first
`k - 1` return false and the `k`-th returns true or `k = 100`.  For one word, the
loop ends with `attempts = k`, `placed` the flag of the `k`-th call, the grid
left by that call, and `3k` more draws consumed. -/
theorem generateWordGrid_bounded_retry (rand : Nat → Nat) (grid : Grid) (drawn : Nat)
    (hw : grid.WF) :
    (∀ words : List Word, ∃ gEnd dEnd,
      generateWordGrid rand words grid drawn = some (gEnd, dEnd) ∧
        BoundedRetryRun rand words grid drawn gEnd dEnd) ∧
    (∀ word : Word, ∃ k b g', 1 ≤ k ∧ k ≤ 100 ∧
      (∀ j, j + 1 < k → attemptCall rand word grid drawn j = some (false, grid)) ∧
      attemptCall rand word grid drawn (k - 1) = some (b, g') ∧
      (b = true ∨ k = 100) ∧
      placeOneWord rand word grid drawn = some (RetryState.mk b k g' (drawn + 3 * k))) := by
  constructor
  · intro words
    obtain ⟨gEnd, dEnd, hgen, _, hrun⟩ := generateWordGrid_run rand words grid drawn hw
    exact ⟨gEnd, dEnd, hgen, hrun⟩
  · intro word
    exact placeOneWord_spec rand word grid drawn hw

/-- Witness for C9: the grid that holds only "CAT", with every draw equal to 0. -/
theorem generateWordGrid_bounded_retry_witness :
    catGrid.WF ∧
    ((∀ words : List Word, ∃ gEnd dEnd,
      generateWordGrid (fun _ => 0) words catGrid 0 = some (gEnd, dEnd) ∧
        BoundedRetryRun (fun _ => 0) words catGrid 0 gEnd dEnd) ∧
    (∀ word : Word, ∃ k b g', 1 ≤ k ∧ k ≤ 100 ∧
      (∀ j, j + 1 < k → attemptCall (fun _ => 0) word catGrid 0 j = some (false, catGrid)) ∧
      attemptCall (fun _ => 0) word catGrid 0 (k - 1) = some (b, g') ∧
      (b = true ∨ k = 100) ∧
      placeOneWord (fun _ => 0) word catGrid 0 = some (RetryState.mk b k g' (0 + 3 * k)))) :=
  ⟨by decide, generateWordGrid_bounded_retry (fun _ => 0) catGrid 0 (by decide)⟩

/-- C10. Unplaced words are skipped without effect: on a 20x20 grid, if all
100 placement attempts for a word return false, the retry loop for that word
ends with `placed = false`, `attempts = 100`, the grid it started from and 300
more draws consumed, and `generateWordGrid` on `word :: rest` gives exactly what
`generateWordGrid` on `rest` gives from the same grid with the random stream
advanced by 300 draws. -/
theorem unplaced_word_skipped (rand : Nat → Nat) (grid : Grid) (word : Word) (drawn : Nat)
    (hw : grid.WF)
    (hfail : ∀ k, k < 100 → ∃ g', attemptCall rand word grid drawn k = some (false, g')) :
    placeOneWord rand word grid drawn = some (RetryState.mk false 100 grid (drawn + 300)) ∧
    ∀ rest : List Word,
      generateWordGrid rand (word :: rest) grid drawn
        = generateWordGrid rand rest grid (drawn + 300) := by
  obtain ⟨k, b, g', h1, h2, _, h4, h5, h6⟩ := placeOneWord_spec rand word grid drawn hw
  obtain ⟨g'', hk⟩ := hfail (k - 1) (by omega)
  rw [h4] at hk
  have hb : b = false := (Prod.mk.inj (Option.some.inj hk)).1
  subst hb
  have hk100 : k = 100 := by
    rcases h5 with h | h
    · exact absurd h (by decide)
    · exact h
  subst hk100
  have hg : g' = grid := place_false_grid grid g' word _ _ _ h4
  subst hg
  refine ⟨h6, ?_⟩
  intro rest
  simp [generateWordGrid, h6]

/-- Witness for C10: "CAT" on the grid whose cells all hold 'X', with every
draw equal to 0, so that each attempt is horizontal at (0,0) and meets 'X'. -/
theorem unplaced_word_skipped_witness :
    fullGrid.WF ∧
    (∀ k, k < 100 → ∃ g', attemptCall (fun _ => 0) wordCAT fullGrid 0 k = some (false, g')) ∧
    placeOneWord (fun _ => 0) wordCAT fullGrid 0
      = some (RetryState.mk false 100 fullGrid (0 + 300)) ∧
    ∀ rest : List Word,
      generateWordGrid (fun _ => 0) (wordCAT :: rest) fullGrid 0
        = generateWordGrid (fun _ => 0) rest fullGrid (0 + 300) :=
  ⟨by decide,
    fun _ _ => ⟨fullGrid,
      show placeWordInGrid fullGrid wordCAT 0 0 .HORIZONTAL = some (false, fullGrid) by decide⟩,
    unplaced_word_skipped (fun _ => 0) fullGrid wordCAT 0 (by decide)
      (fun _ _ => ⟨fullGrid,
        show placeWordInGrid fullGrid wordCAT 0 0 .HORIZONTAL = some (false, fullGrid) by
          decide⟩)⟩

/-! ## Placing a word twice -/

theorem set_same {α : Type} :
    ∀ (v : List α) (n : Nat) (x : α), v[n]? = some x → v.set n x = v := by
  intro v
  induction v with
  | nil => intro n x h; simp at h
  | cons a rest ih =>
    intro n x h
    cases n with
    | zero =>
      simp only [List.getElem?_cons_zero, Option.some.injEq] at h
      simp [h]
    | succ m =>
      simp only [List.getElem?_cons_succ] at h
      simp [ih m x h]

theorem vecSet?_same {α : Type} (v : List α) (i : Int) (x : α) (h : vecGet? v i = some x) :
    vecSet? v i x = some v := by
  rw [vecGet?_eq_some] at h
  obtain ⟨h0, h1⟩ := h
  have hlt := (List.getElem?_eq_some.mp h1).1
  unfold vecSet?
  rw [if_pos ⟨h0, hlt⟩, set_same v _ x h1]

theorem writeCell_same (g : Grid) (r c : Int) (x : Char) (h : readCell g r c = some x) :
    writeCell g r c x = some g := by
  unfold readCell at h
  split at h
  · simp at h
  · rename_i rowv hrow
    unfold writeCell
    simp only [hrow, vecSet?_same rowv c x h, vecSet?_same g r rowv hrow]

theorem placeLoop_same (word : Word) (row col dRow dCol : Int) (grid : Grid) :
    ∀ n i : Nat, (∀ j : Nat, i ≤ j → j < i + n → ∃ w, word[j]? = some w ∧
        readCell grid (row + (j : Int) * dRow) (col + (j : Int) * dCol) = some w) →
      placeLoop word row col dRow dCol n i grid = some grid := by
  intro n
  induction n with
  | zero => intro i _; rfl
  | succ n ih =>
    intro i h
    obtain ⟨w, hw, hr⟩ := h i (le_refl i) (by omega)
    unfold placeLoop
    simp only [hw, writeCell_same grid _ _ w hr]
    exact ih (i + 1) (fun j h1 h2 => h j (by omega) (by omega))

theorem checkLoop_same (word : Word) (row col dRow dCol : Int) (grid : Grid) :
    ∀ n i : Nat, (∀ j : Nat, i ≤ j → j < i + n → ∃ w, word[j]? = some w ∧
        readCell grid (row + (j : Int) * dRow) (col + (j : Int) * dCol) = some w) →
      checkLoop grid word row col dRow dCol n i = some true := by
  intro n
  induction n with
  | zero => intro i _; rfl
  | succ n ih =>
    intro i h
    obtain ⟨w, hw, hr⟩ := h i (le_refl i) (by omega)
    have hrest := ih (i + 1) (fun j h1 h2 => h j (by omega) (by omega))
    unfold checkLoop
    simp only [hr, hw, ne_eq, not_true_eq_false, if_false, hrest, ite_self]

/-- C11. Placement is idempotent: if `placeWordInGrid` succeeds, then the same
call (same word, start cell and direction) on the resulting grid also succeeds
and leaves that grid unchanged. -/
theorem placeWordInGrid_idempotent (grid g' : Grid) (word : Word) (row col : Int)
    (dir : Direction) (h : placeWordInGrid grid word row col dir = some (true, g')) :
    placeWordInGrid g' word row col dir = some (true, g') := by
  obtain ⟨hend, _, _⟩ := place_true_inv grid g' word row col dir h
  have hcells : ∀ j : Nat, 0 ≤ j → j < 0 + word.length → ∃ w, word[j]? = some w ∧
      readCell g' (row + (j : Int) * dRowOf dir) (col + (j : Int) * dColOf dir) = some w := by
    intro j _ hj
    have hj' : j < word.length := by omega
    exact ⟨word.get ⟨j, hj'⟩, by rw [List.getElem?_eq_getElem hj']; rfl,
      place_written grid g' word row col dir h j hj'⟩
  unfold placeWordInGrid
  simp only [GRID_SIZE]
  rw [if_neg (by omega)]
  simp only [checkLoop_same word row col _ _ g' _ _ hcells,
    placeLoop_same word row col _ _ g' _ _ hcells]

/-- Witness for C11: "DIAGONALWORD" at (0,0) diagonal, first on the blank grid,
then on the grid that holds it. -/
theorem placeWordInGrid_idempotent_witness :
    placeWordInGrid blankGrid wordDIAGONALWORD 0 0 .DIAGONAL = some (true, diagonalWordGrid) ∧
    placeWordInGrid diagonalWordGrid wordDIAGONALWORD 0 0 .DIAGONAL
      = some (true, diagonalWordGrid) :=
  ⟨by decide,
    placeWordInGrid_idempotent blankGrid diagonalWordGrid wordDIAGONALWORD 0 0 .DIAGONAL
      (by decide)⟩

/-! ## Word loading -/

theorem upper_letter_not_lower :
    ∀ m, m < 26 → ¬ ('a' ≤ Char.ofNat (65 + m) ∧ Char.ofNat (65 + m) ≤ 'z') := by
  decide

theorem toupper_not_lower (c : Char) : ¬ ('a' ≤ toupper c ∧ toupper c ≤ 'z') := by
  unfold toupper Char.toUpper
  simp only
  split
  · have h2 := upper_letter_not_lower (c.toNat - 97) (by omega)
    have e : 65 + (c.toNat - 97) = c.toNat - 32 := by omega
    rw [e] at h2
    exact h2
  · rename_i h
    intro ⟨h1, h2⟩
    apply h
    have h1' : 'a'.toNat ≤ c.toNat := h1
    have h2' : c.toNat ≤ 'z'.toNat := h2
    have ea : 'a'.toNat = 97 := by decide
    have ez : 'z'.toNat = 122 := by decide
    omega

theorem readLines_eq :
    ∀ (lines words : List Word),
      readLines lines words =
        words ++ ((lines.filter (fun l => decide (l ≠ []))).map (List.map toupper)).filter
          (fun w => decide (w.length ≤ 20)) := by
  intro lines
  induction lines with
  | nil => intro words; simp [readLines]
  | cons word rest ih =>
    intro words
    unfold readLines
    by_cases he : word = []
    · simp [he, ih]
    · by_cases hl : word.length ≤ 20
      · simp [he, hl, ih]
      · simp [he, hl, ih]

/-- C12. Word loading as a function of the input lines: for every list of
lines, `loadWordsFromFile` (starting from an empty vector) gives, in the original
order, exactly the non-empty lines converted to uppercase whose length is at most
20; hence every loaded word is non-empty, has length at most 20, and contains no
lowercase letter 'a'..'z'. -/
theorem loadWordsFromFile_eq (lines : List Word) :
    loadWordsFromFile (some lines) [] =
      ((lines.filter (fun l => decide (l ≠ []))).map (List.map toupper)).filter
        (fun w => decide (w.length ≤ 20)) ∧
    ∀ w ∈ loadWordsFromFile (some lines) [],
      w ≠ [] ∧ w.length ≤ 20 ∧ ∀ ch ∈ w, ¬ ('a' ≤ ch ∧ ch ≤ 'z') := by
  have heq : loadWordsFromFile (some lines) [] =
      ((lines.filter (fun l => decide (l ≠ []))).map (List.map toupper)).filter
        (fun w => decide (w.length ≤ 20)) := by
    simp [loadWordsFromFile, readLines_eq]
  refine ⟨heq, ?_⟩
  intro w hw
  rw [heq, List.mem_filter, List.mem_map] at hw
  obtain ⟨⟨l, hl, hmap⟩, hlen⟩ := hw
  rw [List.mem_filter] at hl
  have hne : l ≠ [] := of_decide_eq_true hl.2
  subst hmap
  refine ⟨?_, of_decide_eq_true hlen, ?_⟩
  · intro h
    exact hne (List.map_eq_nil_iff.mp h)
  · intro ch hch
    obtain ⟨c, _, hc⟩ := List.mem_map.mp hch
    rw [← hc]
    exact toupper_not_lower c

/-! ## Frame of the noise fill -/

theorem fill_keeps_nonblank (rand : Nat → Nat) (g : Grid) (d : Nat) (r c : Int) (ch : Char)
    (hch : readCell g r c = some ch) (hnb : ch ≠ ' ') :
    readCell (fillEmptySpaces rand g d).1 r c = some ch := by
  unfold readCell at hch
  split at hch
  · simp at hch
  · rename_i rowv hrow
    obtain ⟨hr0, hr1⟩ := vecGet?_bounds g r rowv hrow
    obtain ⟨hc0, hc1⟩ := vecGet?_bounds rowv c ch hch
    obtain ⟨hlen, hrows⟩ := fillEmptySpaces_rows rand g d
    obtain ⟨rowv', hrow'⟩ := vecGet?_isSome (fillEmptySpaces rand g d).1 r hr0
      (by rw [hlen]; exact hr1)
    obtain ⟨rowv0, d', hrow0, hfill⟩ := hrows _ _ ((vecGet?_eq_some _ _ _).mp hrow').2
    rw [((vecGet?_eq_some _ _ _).mp hrow).2] at hrow0
    have e0 : rowv = rowv0 := Option.some.inj hrow0
    subst e0
    obtain ⟨hlen', hcells⟩ := fillRow_spec rand rowv d'
    obtain ⟨ch', hch'⟩ := vecGet?_isSome rowv' c hc0 (by rw [hfill, hlen']; exact hc1)
    have hch2 := hch'
    rw [hfill] at hch2
    obtain ⟨_, old, hold, _, hkeep⟩ := hcells _ _ ((vecGet?_eq_some _ _ _).mp hch2).2
    rw [((vecGet?_eq_some _ _ _).mp hch).2] at hold
    have e1 : ch = old := Option.some.inj hold
    subst e1
    have e2 : ch' = ch := hkeep hnb
    subst e2
    simp only [readCell, hrow', hch']

/-- C13. Fill touches only blank cells: for every 20x20 grid and every
sequence of random draws, every cell that is non-blank before `fillEmptySpaces`
holds the same character after it; so the value of such a cell after the fill is
the same whatever the draws and whatever the number of draws made before. -/
theorem fillEmptySpaces_keeps_nonblank (rand : Nat → Nat) (grid : Grid) (drawn : Nat)
    (hw : grid.WF) (r c : Int) (ch : Char)
    (hch : readCell grid r c = some ch) (hnb : ch ≠ ' ') :
    (fillEmptySpaces rand grid drawn).1.WF ∧
    readCell (fillEmptySpaces rand grid drawn).1 r c = some ch ∧
    ∀ (rand' : Nat → Nat) (drawn' : Nat),
      readCell (fillEmptySpaces rand' grid drawn').1 r c
        = readCell (fillEmptySpaces rand grid drawn).1 r c := by
  refine ⟨fillEmptySpaces_WF rand grid drawn hw,
    fill_keeps_nonblank rand grid drawn r c ch hch hnb, ?_⟩
  intro rand' drawn'
  rw [fill_keeps_nonblank rand grid drawn r c ch hch hnb,
    fill_keeps_nonblank rand' grid drawn' r c ch hch hnb]

/-- Witness for C13: cell (2,4) of the grid that holds only "CAT" keeps its 'T'. -/
theorem fillEmptySpaces_keeps_nonblank_witness :
    catGrid.WF ∧ readCell catGrid 2 4 = some 'T' ∧ 'T' ≠ ' ' ∧
    ((fillEmptySpaces (fun _ => 7) catGrid 0).1.WF ∧
    readCell (fillEmptySpaces (fun _ => 7) catGrid 0).1 2 4 = some 'T' ∧
    ∀ (rand' : Nat → Nat) (drawn' : Nat),
      readCell (fillEmptySpaces rand' catGrid drawn').1 2 4
        = readCell (fillEmptySpaces (fun _ => 7) catGrid 0).1 2 4) :=
  ⟨by decide, by decide, by decide,
    fillEmptySpaces_keeps_nonblank (fun _ => 7) catGrid 0 (by decide) 2 4 'T'
      (by decide) (by decide)⟩

/-! ## Shape of the selection -/

/-- C14. Let `minWords ≤ maxWords` and let the shuffle return a permutation.
When the candidate count is below `minWords`, `selectRandomWords` returns exactly
`minWords` elements: a permutation of all the candidates followed by
`minWords - candidateCount` empty strings.  When the candidate count is at least
`minWords` (and `maxWords` is not negative), it returns the first
`min(candidateCount, maxWords)` elements of a permutation of the candidates, so
the result is a sub-multiset of the candidates: no candidate position is selected
twice. -/
theorem selectRandomWords_shape (shuffle : Nat → List Word → List Word)
    (hperm : ∀ seed l, (shuffle seed l).Perm l) (rand : Nat → Nat) (drawn : Nat)
    (allWords : List Word) (minWords maxWords : Int) (hle : minWords ≤ maxWords) :
    ((allWords.length : Int) < minWords →
      ∃ p : List Word, p.Perm allWords ∧
        selectRandomWords shuffle rand drawn allWords minWords maxWords
          = some (p ++ List.replicate (minWords.toNat - allWords.length) [], drawn + 1) ∧
        ((p ++ List.replicate (minWords.toNat - allWords.length) ([] : Word)).length : Int)
          = minWords) ∧
    (minWords ≤ (allWords.length : Int) → 0 ≤ maxWords →
      ∃ p : List Word, p.Perm allWords ∧
        selectRandomWords shuffle rand drawn allWords minWords maxWords
          = some (p.take (min (allWords.length : Int) maxWords).toNat, drawn + 1) ∧
        (p.take (min (allWords.length : Int) maxWords).toNat).Subperm allWords) := by
  have hp := hperm (rand drawn) allWords
  have hl : (shuffle (rand drawn) allWords).length = allWords.length := hp.length_eq
  constructor
  · intro hlt
    refine ⟨shuffle (rand drawn) allWords, hp, ?_, ?_⟩
    · rw [selectRandomWords_eq shuffle rand drawn allWords minWords maxWords (by omega)]
      have hn : (if min (allWords.length : Int) maxWords < minWords then minWords
          else min (allWords.length : Int) maxWords) = minWords := by
        rw [if_pos (by omega)]
      rw [hn]
      unfold resize
      rw [List.take_of_length_le (by omega), hl]
    · rw [List.length_append, List.length_replicate, hl]
      omega
  · intro hge hmax
    refine ⟨shuffle (rand drawn) allWords, hp, ?_, ?_⟩
    · unfold selectRandomWords
      simp only
      rw [if_neg (by omega), if_neg (by omega)]
      unfold resize
      have h0 : (min (allWords.length : Int) maxWords).toNat
          - (shuffle (rand drawn) allWords).length = 0 := by omega
      rw [h0, List.replicate_zero, List.append_nil]
    · exact (List.take_sublist _ _).subperm.trans hp.subperm

/-- Witness for C14: candidates ["CAT", "DOG"], minWords = 10, maxWords = 20,
with the shuffle that reverses its argument: ten elements, "CAT" and "DOG" in some
order, then eight empty strings. -/
theorem selectRandomWords_shape_witness :
    (10 : Int) ≤ 20 ∧ ((([wordCAT, wordDOG] : List Word).length : Int) < 10) ∧
    ∃ p : List Word, p.Perm [wordCAT, wordDOG] ∧
      selectRandomWords (fun _ l => l.reverse) (fun _ => 0) 0 [wordCAT, wordDOG] 10 20
        = some (p ++ List.replicate ((10 : Int).toNat - [wordCAT, wordDOG].length) [], 0 + 1) ∧
      ((p ++ List.replicate ((10 : Int).toNat - [wordCAT, wordDOG].length)
        ([] : Word)).length : Int) = 10 :=
  ⟨by decide, by decide,
    (selectRandomWords_shape (fun _ l => l.reverse) (fun _ l => List.reverse_perm l)
      (fun _ => 0) 0 [wordCAT, wordDOG] 10 20 (by decide)).1 (by decide)⟩

/-! ## Placed words stay readable -/

theorem afterCalls_keeps_nonblank (g g' : Grid) (h : AfterCalls g g') (r c : Int) (ch : Char)
    (hch : readCell g r c = some ch) (hnb : ch ≠ ' ') : readCell g' r c = some ch := by
  induction h with
  | none g => exact hch
  | call g g1 g2 word row col dir b hcall _ ih =>
    exact ih (place_keeps_nonblank g g1 word row col dir b hcall r c ch hch hnb)

/-- C15. Placed words stay readable: if a word that contains no blank is
placed successfully at `(row, col, dir)`, then after every subsequent sequence of
`placeWordInGrid` calls (successful or not) followed by `fillEmptySpaces` with any
random draws, the cells of the word's path in the final grid hold the word's
characters in order. -/
theorem placed_word_stays_readable (g0 g1 g2 : Grid) (word : Word) (row col : Int)
    (dir : Direction) (hword : ∀ ch ∈ word, ch ≠ ' ')
    (h : placeWordInGrid g0 word row col dir = some (true, g1))
    (hcalls : AfterCalls g1 g2) (rand : Nat → Nat) (drawn : Nat) :
    ∀ (i : Nat) (hi : i < word.length),
      readCell (fillEmptySpaces rand g2 drawn).1
        (row + (i : Int) * dRowOf dir) (col + (i : Int) * dColOf dir)
        = some (word.get ⟨i, hi⟩) := by
  intro i hi
  have hnb : word.get ⟨i, hi⟩ ≠ ' ' := hword _ (List.get_mem word i hi)
  exact fill_keeps_nonblank rand g2 drawn _ _ _
    (afterCalls_keeps_nonblank g1 g2 hcalls _ _ _
      (place_written g0 g1 word row col dir h i hi) hnb) hnb

/-- Witness for C15: "CAT" placed horizontally at (2,2) on the blank grid,
followed by a failing call ("DOG" vertical at (0,4)), a successful call ("CAT"
again) and the fill with every draw equal to 7. -/
theorem placed_word_stays_readable_witness :
    (∀ ch ∈ wordCAT, ch ≠ ' ') ∧
    placeWordInGrid blankGrid wordCAT 2 2 .HORIZONTAL = some (true, catGrid) ∧
    AfterCalls catGrid catGrid ∧
    ∀ (i : Nat) (hi : i < wordCAT.length),
      readCell (fillEmptySpaces (fun _ => 7) catGrid 0).1
        (2 + (i : Int) * dRowOf .HORIZONTAL) (2 + (i : Int) * dColOf .HORIZONTAL)
        = some (wordCAT.get ⟨i, hi⟩) :=
  ⟨by decide, by decide,
    AfterCalls.call catGrid catGrid catGrid wordDOG 0 4 .VERTICAL false (by decide)
      (AfterCalls.call catGrid catGrid catGrid wordCAT 2 2 .HORIZONTAL true (by decide)
        (AfterCalls.none catGrid)),
    placed_word_stays_readable blankGrid catGrid catGrid wordCAT 2 2 .HORIZONTAL
      (by decide) (by decide)
      (AfterCalls.call catGrid catGrid catGrid wordDOG 0 4 .VERTICAL false (by decide)
        (AfterCalls.call catGrid catGrid catGrid wordCAT 2 2 .HORIZONTAL true (by decide)
          (AfterCalls.none catGrid)))
      (fun _ => 7) 0⟩

/-! ## Index safety and frame -/

/-- C16. Index safety under the driver's precondition: on a 20x20 grid, for
every word of any length, every direction and every start cell with
`0 ≤ row < 20` and `0 ≤ col < 20`, `placeWordInGrid` never takes an out-of-range
subscript (its result is not `none`), and whenever the end-cell check passes,
every cell `(row + i*dRow, col + i*dCol)` with `i` below the word's length, which
are the cells and word indices the two loops touch, is inside the grid.  The
calls made by `generateWordGrid` are of this kind, so neither an attempt nor the
whole driver takes an out-of-range subscript. -/
theorem placeWordInGrid_index_safe (grid : Grid) (hw : grid.WF) :
    (∀ (word : Word) (row col : Int) (dir : Direction),
      0 ≤ row → row < 20 → 0 ≤ col → col < 20 →
      placeWordInGrid grid word row col dir ≠ none ∧
      ((0 ≤ row + dRowOf dir * ((word.length : Int) - 1) ∧
        row + dRowOf dir * ((word.length : Int) - 1) < 20 ∧
        0 ≤ col + dColOf dir * ((word.length : Int) - 1) ∧
        col + dColOf dir * ((word.length : Int) - 1) < 20) →
       ∀ i : Nat, i < word.length →
        0 ≤ row + (i : Int) * dRowOf dir ∧ row + (i : Int) * dRowOf dir < 20 ∧
        0 ≤ col + (i : Int) * dColOf dir ∧ col + (i : Int) * dColOf dir < 20)) ∧
    (∀ (rand : Nat → Nat) (word : Word) (d k : Nat), attemptCall rand word grid d k ≠ none) ∧
    (∀ (rand : Nat → Nat) (words : List Word) (d : Nat),
      generateWordGrid rand words grid d ≠ none) := by
  refine ⟨?_, ?_, ?_⟩
  · intro word row col dir hr0 hr1 hc0 hc1
    obtain ⟨b, g', h⟩ := place_total grid hw word row col dir hr0 hr1 hc0 hc1
    exact ⟨by rw [h]; simp, fun hend i hi =>
      path_in_range word row col dir hr0 hr1 hc0 hc1 hend i hi⟩
  · intro rand word d k
    obtain ⟨b, g', h⟩ := attemptCall_total rand word grid hw d k
    rw [h]; simp
  · intro rand words d
    obtain ⟨gEnd, dEnd, h, _⟩ := generateWordGrid_run rand words grid d hw
    rw [h]; simp

/-- Witness for C16: the grid that holds only "CAT". -/
theorem placeWordInGrid_index_safe_witness :
    catGrid.WF ∧
    ((∀ (word : Word) (row col : Int) (dir : Direction),
      0 ≤ row → row < 20 → 0 ≤ col → col < 20 →
      placeWordInGrid catGrid word row col dir ≠ none ∧
      ((0 ≤ row + dRowOf dir * ((word.length : Int) - 1) ∧
        row + dRowOf dir * ((word.length : Int) - 1) < 20 ∧
        0 ≤ col + dColOf dir * ((word.length : Int) - 1) ∧
        col + dColOf dir * ((word.length : Int) - 1) < 20) →
       ∀ i : Nat, i < word.length →
        0 ≤ row + (i : Int) * dRowOf dir ∧ row + (i : Int) * dRowOf dir < 20 ∧
        0 ≤ col + (i : Int) * dColOf dir ∧ col + (i : Int) * dColOf dir < 20)) ∧
    (∀ (rand : Nat → Nat) (word : Word) (d k : Nat),
      attemptCall rand word catGrid d k ≠ none) ∧
    (∀ (rand : Nat → Nat) (words : List Word) (d : Nat),
      generateWordGrid rand words catGrid d ≠ none)) :=
  ⟨by decide, placeWordInGrid_index_safe catGrid (by decide)⟩

/-- C17. Frame of a successful placement: on a 20x20 grid, if
`placeWordInGrid` returns true then every cell that is not on the word's path
(not of the form `(row + i*dRow, col + i*dCol)` with `i` below the word's length)
is unchanged, and the grid keeps its 20x20 shape. -/
theorem placeWordInGrid_frame (grid g' : Grid) (word : Word) (row col : Int)
    (dir : Direction) (hw : grid.WF)
    (h : placeWordInGrid grid word row col dir = some (true, g')) :
    g'.WF ∧
    ∀ r c : Int,
      (∀ i : Nat, i < word.length →
        ¬ (r = row + (i : Int) * dRowOf dir ∧ c = col + (i : Int) * dColOf dir)) →
      readCell g' r c = readCell grid r c :=
  ⟨place_WF grid g' word row col dir true h hw,
    fun r c hoff => place_frame grid g' word row col dir true h r c hoff⟩

/-- Witness for C17: "DIAGONALWORD" at (0,0) diagonal on the blank grid. -/
theorem placeWordInGrid_frame_witness :
    blankGrid.WF ∧
    placeWordInGrid blankGrid wordDIAGONALWORD 0 0 .DIAGONAL = some (true, diagonalWordGrid) ∧
    (diagonalWordGrid.WF ∧
    ∀ r c : Int,
      (∀ i : Nat, i < wordDIAGONALWORD.length →
        ¬ (r = 0 + (i : Int) * dRowOf .DIAGONAL ∧ c = 0 + (i : Int) * dColOf .DIAGONAL)) →
      readCell diagonalWordGrid r c = readCell blankGrid r c) :=
  ⟨by decide, by decide,
    placeWordInGrid_frame blankGrid diagonalWordGrid wordDIAGONALWORD 0 0 .DIAGONAL
      (by decide) (by decide)⟩

/-! ## Start cells outside the grid -/

/-- C18, counterexample.  The word "ABCDEFGHIJ" vertical from row -5, column 0
of the blank grid: the first cell of the path is outside the grid, the end cell
(4, 0) passes the bounds check, and the call is not rejected: it goes on to the
subscript `grid[-5]`, which is out of range. -/
theorem end_check_misses_outside_start :
    ¬ (0 ≤ (-5 : Int) + ((0 : Nat) : Int) * dRowOf .VERTICAL) ∧
    (0 ≤ (-5 : Int) + dRowOf .VERTICAL * ((wordTen.length : Int) - 1) ∧
      (-5 : Int) + dRowOf .VERTICAL * ((wordTen.length : Int) - 1) < 20 ∧
      0 ≤ (0 : Int) + dColOf .VERTICAL * ((wordTen.length : Int) - 1) ∧
      (0 : Int) + dColOf .VERTICAL * ((wordTen.length : Int) - 1) < 20) ∧
    placeWordInGrid blankGrid wordTen (-5) 0 .VERTICAL = none ∧
    placeWordInGrid blankGrid wordTen (-5) 0 .VERTICAL ≠ some (false, blankGrid) := by
  decide

/-- C18, amended.  On a 20x20 grid, for every word, every direction and every
start cell inside the grid, `placeWordInGrid` returns, it reports success only if
all cells along the word's path are inside the grid, and if some cell of the path
is outside the grid it returns false and leaves the grid unchanged. -/
theorem placeWordInGrid_success_in_bounds (grid : Grid) (hw : grid.WF) (word : Word)
    (row col : Int) (dir : Direction)
    (hr0 : 0 ≤ row) (hr1 : row < 20) (hc0 : 0 ≤ col) (hc1 : col < 20) :
    ∃ b g', placeWordInGrid grid word row col dir = some (b, g') ∧
      (b = true → ∀ i : Nat, i < word.length →
        0 ≤ row + (i : Int) * dRowOf dir ∧ row + (i : Int) * dRowOf dir < 20 ∧
        0 ≤ col + (i : Int) * dColOf dir ∧ col + (i : Int) * dColOf dir < 20) ∧
      ((∃ i : Nat, i < word.length ∧
        ¬ (0 ≤ row + (i : Int) * dRowOf dir ∧ row + (i : Int) * dRowOf dir < 20 ∧
          0 ≤ col + (i : Int) * dColOf dir ∧ col + (i : Int) * dColOf dir < 20)) →
        b = false ∧ g' = grid) := by
  obtain ⟨b, g', h⟩ := place_total grid hw word row col dir hr0 hr1 hc0 hc1
  refine ⟨b, g', h, ?_, ?_⟩
  · intro hb i hi
    subst hb
    exact path_in_range word row col dir hr0 hr1 hc0 hc1
      (place_true_inv grid g' word row col dir h).1 i hi
  · rintro ⟨i, hi, hout⟩
    cases b with
    | false => exact ⟨rfl, place_false_grid grid g' word row col dir h⟩
    | true =>
      exact absurd (path_in_range word row col dir hr0 hr1 hc0 hc1
        (place_true_inv grid g' word row col dir h).1 i hi) hout

/-- Witness for C18, amended: "ABCDEFGHIJ" vertical from (15, 0) on the blank
grid. -/
theorem placeWordInGrid_success_in_bounds_witness :
    blankGrid.WF ∧ (0 : Int) ≤ 15 ∧ (15 : Int) < 20 ∧ (0 : Int) ≤ 0 ∧ (0 : Int) < 20 ∧
    ∃ b g', placeWordInGrid blankGrid wordTen 15 0 .VERTICAL = some (b, g') ∧
      (b = true → ∀ i : Nat, i < wordTen.length →
        0 ≤ 15 + (i : Int) * dRowOf .VERTICAL ∧ 15 + (i : Int) * dRowOf .VERTICAL < 20 ∧
        0 ≤ 0 + (i : Int) * dColOf .VERTICAL ∧ 0 + (i : Int) * dColOf .VERTICAL < 20) ∧
      ((∃ i : Nat, i < wordTen.length ∧
        ¬ (0 ≤ 15 + (i : Int) * dRowOf .VERTICAL ∧ 15 + (i : Int) * dRowOf .VERTICAL < 20 ∧
          0 ≤ 0 + (i : Int) * dColOf .VERTICAL ∧ 0 + (i : Int) * dColOf .VERTICAL < 20)) →
        b = false ∧ g' = blankGrid) :=
  ⟨by decide, by decide, by decide, by decide, by decide,
    placeWordInGrid_success_in_bounds blankGrid (by decide) wordTen 15 0 .VERTICAL
      (by decide) (by decide) (by decide) (by decide)⟩

/-! ## The empty word -/

/-- C19. Empty-word edge case: for the empty word, every grid and every start
cell inside the grid, `placeWordInGrid` returns the grid unchanged, and its flag
is true exactly when the start coordinate on each axis the direction moves along
is at least 1 (horizontal: `col ≥ 1`; vertical: `row ≥ 1`; diagonal: both), the end
cell being `start - delta`.  The flag does not depend on the grid. -/
theorem placeWordInGrid_empty_word (grid : Grid) (row col : Int) (dir : Direction)
    (hr0 : 0 ≤ row) (hr1 : row < 20) (hc0 : 0 ≤ col) (hc1 : col < 20) :
    ∃ b, placeWordInGrid grid [] row col dir = some (b, grid) ∧
      (b = true ↔
        match dir with
        | .HORIZONTAL => 1 ≤ col
        | .VERTICAL => 1 ≤ row
        | .DIAGONAL => 1 ≤ row ∧ 1 ≤ col) ∧
      ∀ grid2 : Grid, placeWordInGrid grid2 [] row col dir = some (b, grid2) := by
  have key : ∀ g : Grid, placeWordInGrid g [] row col dir =
      some (decide (0 ≤ row - dRowOf dir ∧ 0 ≤ col - dColOf dir), g) := by
    intro g
    unfold placeWordInGrid
    simp only [List.length_nil, Nat.cast_zero, zero_sub, mul_neg, mul_one, GRID_SIZE,
      checkLoop, placeLoop]
    by_cases hc : 0 ≤ row - dRowOf dir ∧ 0 ≤ col - dColOf dir
    · have hd : dRowOf dir = 0 ∨ dRowOf dir = 1 := by cases dir <;> simp [dRowOf]
      have hd' : dColOf dir = 0 ∨ dColOf dir = 1 := by cases dir <;> simp [dColOf]
      rw [if_neg (by omega), decide_eq_true hc]
    · rw [if_pos (by omega), decide_eq_false hc]
  refine ⟨decide (0 ≤ row - dRowOf dir ∧ 0 ≤ col - dColOf dir), key grid, ?_, key⟩
  rw [decide_eq_true_iff]
  cases dir <;> simp only [dRowOf, dColOf] <;> omega

/-- Witness for C19: the empty word at (0, 5) on the blank grid; horizontal
succeeds, vertical does not. -/
theorem placeWordInGrid_empty_word_witness :
    (0 : Int) ≤ 0 ∧ (0 : Int) < 20 ∧ (0 : Int) ≤ 5 ∧ (5 : Int) < 20 ∧
    ∃ b, placeWordInGrid blankGrid [] 0 5 .VERTICAL = some (b, blankGrid) ∧
      (b = true ↔
        match Direction.VERTICAL with
        | .HORIZONTAL => 1 ≤ (5 : Int)
        | .VERTICAL => 1 ≤ (0 : Int)
        | .DIAGONAL => 1 ≤ (0 : Int) ∧ 1 ≤ (5 : Int)) ∧
      ∀ grid2 : Grid, placeWordInGrid grid2 [] 0 5 .VERTICAL = some (b, grid2) :=
  ⟨by decide, by decide, by decide, by decide,
    placeWordInGrid_empty_word blankGrid 0 5 .VERTICAL
      (by decide) (by decide) (by decide) (by decide)⟩

end WordFind
